import Mathlib

/-!
# Verification of the GRBL Mini Sender transmission engine

A shallow embedding, in Lean 4, of the core routines of
`GRBL-Mini-Sender.py`: the status-line parsing helpers, the G-code line
sanitizer, the sync-timeout classifier, the override stepping routine and
the buffered-streaming flow-control engine (`GrblWorker`), together with
theorems settling the specification's claims about them.

Python strings are modelled as `List Char`.  Python's `str.strip` /
`str.split` whitespace class is modelled by its ASCII members (the G-code
protocol is ASCII).  Machine integers are `Nat` / `Int` (Python integers
are unbounded, so no wraparound modelling is needed); floating-point
configuration values (the timeout durations) are modelled as `ℚ`, and
`float()` conversion of status fields is modelled as exact decimal
parsing into `ℚ` (the claims under study never depend on rounding).
-/

namespace GrblSender

/-- The whitespace characters recognised by Python's `str.strip()` /
`str.split()` (ASCII fragment). -/
def pySpace (c : Char) : Bool :=
  c = ' ' || c = '\t' || c = '\n' || c = '\r' || c = '\x0b' || c = '\x0c'

/-- Python `s.strip()`: drop leading and trailing whitespace. -/
def pyStrip (l : List Char) : List Char :=
  ((l.dropWhile pySpace).reverse.dropWhile pySpace).reverse

/-- Locate the first occurrence of `sep` in a string, returning the text
before it and the text after it — the engine behind Python's
`s.split(sep, 1)` and the `sep in s` test (for non-empty `sep`). -/
def findSplit (sep : List Char) : List Char → Option (List Char × List Char)
  | [] => if sep.isPrefixOf ([] : List Char) then some ([], []) else none
  | c :: r =>
    if sep.isPrefixOf (c :: r) then some ([], (c :: r).drop sep.length)
    else (findSplit sep r).map fun p => (c :: p.1, p.2)

/-- Python `sep in s` (for non-empty `sep`). -/
def pyContains (sep l : List Char) : Bool :=
  (findSplit sep l).isSome

/-- Python `s.split(sep, 1)[0]`. -/
def splitOnceLeft (sep l : List Char) : List Char :=
  match findSplit sep l with
  | none => l
  | some p => p.1

/-- Python `s.split(sep, 1)[1]` when `sep` occurs (used only after an
occurrence test, as the source does). -/
def splitOnceRight (sep l : List Char) : List Char :=
  match findSplit sep l with
  | none => l
  | some p => p.2

/-- Python `s.split(c)` for a single-character separator: full split on
every occurrence. -/
def splitChar (sep : Char) : List Char → List (List Char)
  | [] => [[]]
  | c :: r =>
    if c = sep then [] :: splitChar sep r
    else
      match splitChar sep r with
      | [] => [[c]]
      | x :: xs => (c :: x) :: xs

/-- Python `s.lower()` (ASCII fragment, via `Char.toLower`). -/
def pyLower (l : List Char) : List Char :=
  l.map Char.toLower

/-- Python `s.upper()` (ASCII fragment, via `Char.toUpper`). -/
def pyUpper (l : List Char) : List Char :=
  l.map Char.toUpper

/-- The numeric value of a digit string (most significant first). -/
def digitsVal (ds : List Char) : Nat :=
  ds.foldl (fun a c => a * 10 + (c.toNat - 48)) 0

/-- Split off a maximal leading run of decimal digits. -/
def parseDigits (l : List Char) : List Char × List Char :=
  (l.takeWhile Char.isDigit, l.dropWhile Char.isDigit)

/-- Exponent suffix of a Python float literal: `[+-]? digits`, which must
consume the rest of the string. -/
def pyFloatExp (m : ℚ) (r : List Char) : Option ℚ :=
  let signed : Bool × List Char :=
    match r with
    | '+' :: r2 => (false, r2)
    | '-' :: r2 => (true, r2)
    | r2 => (false, r2)
  let ds := parseDigits signed.2
  if ds.1 = [] ∨ ds.2 ≠ [] then none
  else if signed.1 then some (m / 10 ^ digitsVal ds.1)
  else some (m * 10 ^ digitsVal ds.1)

/-- Mantissa (and optional exponent) of a Python float literal:
`digits [. digits] | . digits`, optionally followed by `e`/`E` and an
exponent.  Anything else fails. -/
def pyFloatBody (u : List Char) : Option ℚ :=
  let ip := parseDigits u
  match ip.2 with
  | [] => if ip.1 = [] then none else some (digitsVal ip.1)
  | '.' :: r2 =>
    let fp := parseDigits r2
    if ip.1 = [] ∧ fp.1 = [] then none
    else
      let m : ℚ := digitsVal ip.1 + (digitsVal fp.1 : ℚ) / 10 ^ fp.1.length
      match fp.2 with
      | [] => some m
      | 'e' :: r4 => pyFloatExp m r4
      | 'E' :: r4 => pyFloatExp m r4
      | _ => none
  | 'e' :: r4 => if ip.1 = [] then none else pyFloatExp (digitsVal ip.1) r4
  | 'E' :: r4 => if ip.1 = [] then none else pyFloatExp (digitsVal ip.1) r4
  | _ => none

/-- Python `float(s)` modelled as exact decimal parsing into `ℚ`:
optional surrounding whitespace, optional sign, decimal mantissa with
optional fraction and exponent.  (The special values `inf`/`nan` and
digit-group underscores are outside the modelled fragment; no claim
involves them.) -/
def pyFloat? (s : List Char) : Option ℚ :=
  let t := pyStrip s
  let signed : Bool × List Char :=
    match t with
    | '+' :: r => (false, r)
    | '-' :: r => (true, r)
    | r => (false, r)
  match pyFloatBody signed.2 with
  | none => none
  | some v => some (if signed.1 then -v else v)

/-- Python `int(s)` modelled for decimal strings: optional surrounding
whitespace, optional sign, then a non-empty run of digits.  (Digit-group
underscores are outside the modelled fragment.) -/
def pyInt? (s : List Char) : Option Int :=
  let t := pyStrip s
  let signed : Bool × List Char :=
    match t with
    | '+' :: r => (false, r)
    | '-' :: r => (true, r)
    | r => (false, r)
  if signed.2 = [] ∨ ¬ signed.2.all Char.isDigit then none
  else if signed.1 then some (-(digitsVal signed.2 : Int))
  else some (digitsVal signed.2 : Int)

/-! ## Status-line parsing (`parse_*` functions of the source) -/

/-- `parse_state_from_status`:.  `None` unless the line starts with `<`
and contains a `|`; otherwise the text between `<` and the first `|`. -/
def parse_state_from_status (status_line : List Char) : Option (List Char) :=
  if (['<'].isPrefixOf status_line ∧ pyContains ['|'] status_line) then
    some (splitOnceLeft ['|'] (status_line.drop 1))
  else none

/-- `parse_field`: find `"|" + key` in the line and return the text from
just after it up to the next `|` (or the end of the line). -/
def parse_field (status_line key : List Char) : Option (List Char) :=
  let needle := '|' :: key
  match findSplit needle status_line with
  | none => none
  | some p => some (splitOnceLeft ['|'] p.2)

def keyMPos : List Char := ['M', 'P', 'o', 's', ':']
def keyWPos : List Char := ['W', 'P', 'o', 's', ':']
def keyWCO : List Char := ['W', 'C', 'O', ':']
def keyBf : List Char := ['B', 'f', ':']
def keyFS : List Char := ['F', 'S', ':']
def keyPn : List Char := ['P', 'n', ':']
def keyA : List Char := ['A', ':']

/-- `parse_vec3`: exactly-three comma-separated floats, else `None`. -/
def parse_vec3 (csv3 : Option (List Char)) : Option (ℚ × ℚ × ℚ) :=
  match csv3 with
  | none => none
  | some l =>
    if l = [] then none
    else
      let parts := splitChar ',' l
      if parts.length < 3 then none
      else
        match pyFloat? (parts.getD 0 []), pyFloat? (parts.getD 1 []),
              pyFloat? (parts.getD 2 []) with
        | some a, some b, some c => some (a, b, c)
        | _, _, _ => none

/-- `compute_wpos`: work position = machine position − work offset. -/
def compute_wpos (mpos wco : Option (ℚ × ℚ × ℚ)) : Option (ℚ × ℚ × ℚ) :=
  match mpos, wco with
  | some m, some w => some (m.1 - w.1, m.2.1 - w.2.1, m.2.2 - w.2.2)
  | _, _ => none

/-- `parse_feed_from_status`: the `FS` field's text before its first
comma. -/
def parse_feed_from_status (status_line : List Char) : Option (List Char) :=
  match parse_field status_line keyFS with
  | none => none
  | some fs => if fs = [] then none else some (splitOnceLeft [','] fs)

/-- `parse_bf_from_status`: the `Bf` field as two comma-separated
integers; any malformation yields `None`. -/
def parse_bf_from_status (status_line : List Char) : Option (Int × Int) :=
  match parse_field status_line keyBf with
  | none => none
  | some bf =>
    if bf = [] then none
    else
      match findSplit [','] bf with
      | none => none
      | some p =>
        match pyInt? p.1, pyInt? p.2 with
        | some x, some y => some (x, y)
        | _, _ => none

/-- `parse_pins_from_status`: the set of characters of the stripped `Pn`
field value; absent or empty field gives the empty set. -/
def parse_pins_from_status (status_line : List Char) : Finset Char :=
  match parse_field status_line keyPn with
  | none => ∅
  | some pn => if pn = [] then ∅ else (pyStrip pn).toFinset

/-- `parse_accessories_from_status`: the set of characters of the
stripped `A` field value. -/
def parse_accessories_from_status (status_line : List Char) : Finset Char :=
  match parse_field status_line keyA with
  | none => ∅
  | some a => if a = [] then ∅ else (pyStrip a).toFinset

/-! ## Line sanitizer (`clean_gcode_line`) -/

/-- The parenthesis-comment stripping loop of `clean_gcode_line`: a `(`
opens a nesting level, a `)` closes one (the depth is floored at 0, as
`max(0, in_paren - 1)` — `Nat` subtraction models this exactly), and a
character is kept only at depth 0. -/
def stripParensAux (depth : Nat) : List Char → List Char
  | [] => []
  | c :: r =>
    if c = '(' then stripParensAux (depth + 1) r
    else if c = ')' then stripParensAux (depth - 1) r
    else if depth = 0 then c :: stripParensAux 0 r
    else stripParensAux depth r

/-- Python `"".join(s.split())`: delete every whitespace character. -/
def removeWs (l : List Char) : List Char :=
  l.filter fun c => !(pySpace c)

/-- `clean_gcode_line`: strip, remove parenthesised comments, truncate at
the first `;`, and normalize the remainder by deleting all whitespace and
upper-casing; empty at any stage yields the empty string. -/
def clean_gcode_line (line : List Char) : List Char :=
  let s0 := pyStrip line
  if s0 = [] then []
  else
    let s1 := pyStrip (stripParensAux 0 s0)
    let s2 := if pyContains [';'] s1 then pyStrip (splitOnceLeft [';'] s1) else s1
    if s2 = [] then []
    else pyUpper (removeWs s2)

/-- Modelled from the spec: the sanitizer pipeline exactly as §4.2 words
it — remove parenthesised text with a depth counter floored at zero, then
truncate at the first `;`, then (if anything remains) delete every
whitespace character and upper-case the result. -/
def specSanitize (line : List Char) : List Char :=
  let noParens := stripParensAux 0 line
  let truncated := noParens.takeWhile fun c => c ≠ ';'
  let squeezed := removeWs truncated
  if squeezed = [] then [] else pyUpper squeezed

/-! ## The transmission engine (`GrblWorker`)

The worker is embedded as a pure state machine: serial input is supplied
as already-split lines (the output of `_pop_lines_from_rx`), and serial
output, real-time bytes and UI-queue events are collected into a list of
`Act`s.  Time (deadlines, sleeps) is elided; the synchronous
acknowledgment wait consumes an explicit list of incoming lines and ends
in a timeout when that list is exhausted. -/

/-- GRBL real-time byte codes used by the embedded routines. -/
def CTRL_X : Nat := 0x18
def RT_STATUS : Nat := 0x3f
def RT_HOLD : Nat := 0x21
def RT_RESUME : Nat := 0x7e
def RT_FEED_PLUS_10 : Nat := 0x91
def RT_FEED_MINUS_10 : Nat := 0x92
def RT_FEED_PLUS_1 : Nat := 0x93
def RT_FEED_MINUS_1 : Nat := 0x94
def RT_SPINDLE_PLUS_10 : Nat := 0x9A
def RT_SPINDLE_MINUS_10 : Nat := 0x9B
def RT_SPINDLE_PLUS_1 : Nat := 0x9C
def RT_SPINDLE_MINUS_1 : Nat := 0x9D

def DEFAULT_GRBL_RX_BUFFER_BYTES : Nat := 128
def DEFAULT_SYNC_TIMEOUT_S : ℚ := 2
def HOMING_SYNC_TIMEOUT_S : ℚ := 60
def SYSTEM_SYNC_TIMEOUT_S : ℚ := 10

/-- `clamp` of the source: `max(lo, min(hi, v))`. -/
def clamp (v lo hi : Int) : Int :=
  max lo (min hi v)

inductive StreamMode
  | sync
  | buffered
deriving DecidableEq, Repr

inductive PauseMode
  | paused
  | hold
deriving DecidableEq, Repr

/-- Outcome of `_read_sync_response`. -/
inductive SyncOutcome
  | ok
  | fatal (msg : List Char)
  | timedOut
  | stopped
deriving DecidableEq, Repr

inductive JobStateTag
  | idle
  | running
  | paused
  | hold
  | disconnected
deriving DecidableEq, Repr

/-- Log-message payloads (the source renders these as f-strings; the
claims depend on which message is sent and on its data, not on its
rendering). -/
inductive LogMsg
  | grblLine (l : List Char)
  | plannerNotice
  | learnedBuffer (n : Int)
  | lineExceedsBuffer (ln total : Nat)
  | jobComplete
  | jobStopped (o : SyncOutcome)
  | jobStoppedFatal (msg : List Char)
  | serialWriteFailed
  | jobStarted
  | softResetNote
  | cancelNote (unlock : Bool)
deriving DecidableEq, Repr

/-- UI-queue events (`self.ui_queue.put(...)`). -/
inductive UiEvent
  | logE (m : LogMsg)
  | errorE (m : LogMsg)
  | jobState (s : JobStateTag)
  | progress (ackd total : Nat)
  | jobLine (sent ackd total : Nat)
  | streamMode (m : Option StreamMode)
  | statusEv (line : List Char)
  | machineState (s : Option (List Char))
deriving DecidableEq, Repr

/-- Externally visible actions of the worker: UI events, program lines
written with `send_line`, raw payload writes of buffered streaming, and
real-time bytes. -/
inductive Act
  | put (e : UiEvent)
  | sendLine (l : List Char)
  | writePayload (l : List Char)
  | sendBytes (b : List Nat)
deriving DecidableEq, Repr

/-- The mutable state of `GrblWorker` (the fields the embedded routines
read or write; serial handle and queues are externalised). -/
structure Worker where
  running : Bool
  jobPath : Option (List Char)
  jobTotal : Nat
  jobSent : Nat
  jobOk : Nat
  jobActive : Bool
  jobPaused : Bool
  pauseMode : PauseMode
  streamMode : StreamMode
  inflight : Nat
  pending : List Nat
  bufferTotal : Nat
  useBfAutosize : Bool
  usePlannerThrottle : Bool
  plannerFreeMin : Int
  cancelUnlock : Bool
  syncTimeoutS : ℚ
  homingSyncTimeoutS : ℚ
  systemSyncTimeoutS : ℚ
  lastPlannerFree : Option Int
  lastRxFree : Option Int
  bfSeen : Bool
  bfWarned : Bool
  lastState : Option (List Char)
  srcLines : List (List Char)
  srcPos : Nat
  jobFhOpen : Bool
deriving DecidableEq, Repr

/-- `GrblWorker.__init__` (the state part). -/
def initWorker (rxBufferTotal : Int) (useBfAutosize usePlannerThrottle : Bool)
    (plannerFreeMin : Int) (cancelUnlock : Bool)
    (syncT homingT systemT : ℚ) : Worker :=
  { running := true
    jobPath := none
    jobTotal := 0
    jobSent := 0
    jobOk := 0
    jobActive := false
    jobPaused := false
    pauseMode := .paused
    streamMode := .sync
    inflight := 0
    pending := []
    bufferTotal := (max 32 (min rxBufferTotal 4096)).toNat
    useBfAutosize := useBfAutosize
    usePlannerThrottle := usePlannerThrottle
    plannerFreeMin := clamp plannerFreeMin 1 4
    cancelUnlock := cancelUnlock
    syncTimeoutS := syncT
    homingSyncTimeoutS := homingT
    systemSyncTimeoutS := systemT
    lastPlannerFree := none
    lastRxFree := none
    bfSeen := false
    bfWarned := false
    lastState := none
    srcLines := []
    srcPos := 0
    jobFhOpen := false }

/-- The `job_line` progress event, always published from the current
counters (`_push_job_line`). -/
def jobLineEv (w : Worker) : Act :=
  .put (.jobLine w.jobSent w.jobOk w.jobTotal)

/-- Payload byte length of a buffered send:
`len((line + "\n").encode("ascii", errors="ignore"))` — non-ASCII
characters are dropped by the encoder, the newline adds one byte. -/
def payloadLen (line : List Char) : Nat :=
  (line.filter fun c => c.toNat ≤ 127).length + 1

/-- `_update_bf_tuning`: record the `Bf` pair and, when auto-sizing is on
and the reported receive-free count exceeds the configured capacity,
raise the capacity to it. -/
def update_bf_tuning (w : Worker) (status_line : List Char) : Worker × List Act :=
  match parse_bf_from_status status_line with
  | none => (w, [])
  | some pr =>
    let w1 := { w with bfSeen := true, lastPlannerFree := some pr.1,
                       lastRxFree := some pr.2 }
    if w1.useBfAutosize ∧ (w1.bufferTotal : Int) < pr.2 then
      ({ w1 with bufferTotal := pr.2.toNat },
       [.put (.logE (.learnedBuffer pr.2))])
    else (w1, [])

/-- `_planner_can_send`: no throttling configured, or no `Bf` field ever
seen (with a one-time notice), or the last reported planner-free count is
above the configured minimum. -/
def planner_can_send (w : Worker) : Bool × Worker × List Act :=
  if ¬ w.usePlannerThrottle then (true, w, [])
  else if ¬ w.bfSeen then
    if ¬ w.bfWarned then
      (true, { w with bfWarned := true }, [.put (.logE .plannerNotice)])
    else (true, w, [])
  else
    match w.lastPlannerFree with
    | none => (true, w, [])
    | some pf => (decide (w.plannerFreeMin < pf), w, [])

/-- A `<...>` bracketed status report (`startswith("<") and
endswith(">")`). -/
def isStatusLine (line : List Char) : Bool :=
  ['<'].isPrefixOf line && line.getLast? = some '>'

/-- An `error:`/`alarm:` token (case-insensitive test on the lowered
line). -/
def isErrAlarm (line : List Char) : Bool :=
  ("error:".toList).isPrefixOf (pyLower line) ||
    ("alarm:".toList).isPrefixOf (pyLower line)

/-- The shared status-report handling of the drain and sync-wait loops:
publish the raw status, fold the parsed state into `_last_state` (an
empty parse keeps the old value — Python's `or`), publish the machine
state, update `Bf` tuning. -/
def handleStatusLine (w : Worker) (line : List Char) : Worker × List Act :=
  let newState :=
    match parse_state_from_status line with
    | some s => if s = [] then w.lastState else some s
    | none => w.lastState
  let w1 := { w with lastState := newState }
  let r := update_bf_tuning w1 line
  (r.1, [.put (.statusEv line), .put (.machineState w1.lastState)] ++ r.2)

/-- Pop the front of the pending-length queue and subtract it from the
in-flight counter (floored at 0, as `max(0, ...)` — `Nat` subtraction),
when the queue is non-empty. -/
def ackPop (w : Worker) : Worker :=
  match w.pending with
  | [] => w
  | ln :: rest => { w with pending := rest, inflight := w.inflight - ln }

/-- `_process_incoming_lines`: route each drained line (status report /
`ok` / fatal token / other), counting acknowledgments and remembering a
fatal token (the source overwrites `fatal` on each fatal line, so the
last one is kept).  Returns the ok-count, the fatal message, the new
state and the emitted events. -/
def process_incoming_lines (w : Worker) :
    List (List Char) → Worker × Nat × Option (List Char) × List Act
  | [] => (w, 0, none, [])
  | line :: rest =>
    if isStatusLine line then
      let r1 := handleStatusLine w line
      let r2 := process_incoming_lines r1.1 rest
      (r2.1, r2.2.1, r2.2.2.1, r1.2 ++ r2.2.2.2)
    else if line = ['o', 'k'] then
      let r2 := process_incoming_lines (ackPop w) rest
      (r2.1, r2.2.1 + 1, r2.2.2.1, r2.2.2.2)
    else if isErrAlarm line then
      let r2 := process_incoming_lines (ackPop w) rest
      (r2.1, r2.2.1, some (r2.2.2.1.getD line), .put (.logE (.grblLine line)) :: r2.2.2.2)
    else
      let r2 := process_incoming_lines w rest
      (r2.1, r2.2.1, r2.2.2.1, .put (.logE (.grblLine line)) :: r2.2.2.2)

/-- `_sync_timeout_for_line`: `$H…` commands get the homing timeout,
other `$…` commands the system timeout, everything else the default. -/
def sync_timeout_for_line (w : Worker) (line : List Char) : ℚ :=
  let s := pyUpper (pyStrip line)
  if s = [] then w.syncTimeoutS
  else if ("$H".toList).isPrefixOf s then w.homingSyncTimeoutS
  else if ['$'].isPrefixOf s then w.systemSyncTimeoutS
  else w.syncTimeoutS

/-- `_read_sync_response`: scan incoming lines; status reports are
handled and published (they do not count toward the wait), `ok` returns
success, an `error:`/`alarm:` token returns the fatal line, other lines
are logged.  Exhausting the input models the deadline expiring (or the
worker being stopped). -/
def read_sync_response (w : Worker) :
    List (List Char) → Worker × List Act × SyncOutcome
  | [] => (w, [], if w.running then .timedOut else .stopped)
  | line :: rest =>
    if isStatusLine line then
      let r1 := handleStatusLine w line
      let r2 := read_sync_response r1.1 rest
      (r2.1, r1.2 ++ r2.2.1, r2.2.2)
    else if line = ['o', 'k'] then (w, [], .ok)
    else if isErrAlarm line then (w, [], .fatal line)
    else
      let r2 := read_sync_response w rest
      (r2.1, .put (.logE (.grblLine line)) :: r2.2.1, r2.2.2)

/-- `start_job_from_file`: reset the job counters and the flow-control
window, open the source (its sanitized lines are supplied as
`contents`), and publish the start events. -/
def start_job_from_file (w : Worker) (path : List Char) (total : Nat)
    (mode : List Char) (contents : List (List Char)) : Worker × List Act :=
  let sm := if mode = "sync".toList ∨ mode = "buffered".toList then
              (if mode = "buffered".toList then StreamMode.buffered else .sync)
            else .sync
  let w1 := { w with jobPath := some path, jobTotal := total, jobSent := 0,
                     jobOk := 0, jobActive := true, jobPaused := false,
                     pauseMode := .paused, streamMode := sm,
                     inflight := 0, pending := [],
                     srcLines := contents, srcPos := 0, jobFhOpen := true }
  (w1, [.put (.jobState .running), .put (.progress 0 w1.jobTotal),
        .put (.streamMode (some sm)), jobLineEv w1, .put (.logE .jobStarted)])

/-- `finish_job`: clear the job and the flow-control window, close the
source, publish idle state and the final counters, log `msg`. -/
def finish_job (w : Worker) (msg : LogMsg) : Worker × List Act :=
  let w1 := { w with jobActive := false, jobPaused := false, jobPath := none,
                     jobTotal := 0, jobSent := 0, jobOk := 0, jobFhOpen := false,
                     inflight := 0, pending := [] }
  (w1, [.put (.jobState .idle), .put (.streamMode none), jobLineEv w1,
        .put (.logE msg)])

/-- `cancel_job_local`: discard the job and all pending/in-flight
accounting unconditionally and publish the reset. -/
def cancel_job_local (w : Worker) : Worker × List Act :=
  let w1 := { w with jobActive := false, jobPaused := false, jobPath := none,
                     jobTotal := 0, jobSent := 0, jobOk := 0, jobFhOpen := false,
                     inflight := 0, pending := [] }
  (w1, [.put (.progress 0 0), .put (.jobState .idle), .put (.streamMode none),
        jobLineEv w1])

/-- The `cancel_job` command handler of `run`: send the soft-reset byte,
optionally send `$X` and wait for its synchronous response, then clear
the job locally.  (`syncLines` feeds the optional `$X` wait.) -/
def handle_cancel_job (w : Worker) (syncLines : List (List Char)) :
    Worker × List Act :=
  let a0 : List Act := [.sendBytes [CTRL_X]]
  if w.cancelUnlock then
    let r := read_sync_response w syncLines
    let r2 := cancel_job_local r.1
    (r2.1, a0 ++ [Act.sendLine ['$', 'X']] ++ r.2.1 ++ r2.2 ++
      [.put (.logE (.cancelNote true))])
  else
    let r2 := cancel_job_local w
    (r2.1, a0 ++ r2.2 ++ [.put (.logE (.cancelNote false))])

/-- The `soft_reset` command handler of `run`. -/
def handle_soft_reset (w : Worker) : Worker × List Act :=
  let r := cancel_job_local w
  (r.1, [Act.sendBytes [CTRL_X]] ++ r.2 ++ [.put (.logE .softResetNote)])

/-- Per-step environment of `_stream_step_buffered`: the serial lines
consumed if the oversized-line path falls back to a synchronous wait, and
an optional index of a buffered payload write that raises (modelling the
`try/except` around `self.ser.write(payload)`). -/
structure StreamEnv where
  syncLines : List (List Char)
  writeFailAt : Option Nat
deriving DecidableEq, Repr

/-- The loop body of `_stream_step_buffered`.  `wn` counts payload writes
(for `StreamEnv.writeFailAt`); `fuel` bounds the iterations — every
continuing iteration consumes one source line, so
`srcLines.length - srcPos + 1` is always enough (see
`stream_step_buffered`). -/
def streamLoop (env : StreamEnv) (wn : Nat) (fuel : Nat) (w : Worker) :
    Worker × List Act :=
  match fuel with
  | 0 => (w, [])
  | fuel + 1 =>
    if ¬ (w.running ∧ w.jobActive ∧ ¬ w.jobPaused) then (w, [])
    else
      let rp := planner_can_send w
      let w0 := rp.2.1
      let a0 := rp.2.2
      if ¬ rp.1 then (w0, a0)
      else if w0.bufferTotal - 2 ≤ w0.inflight then (w0, a0)
      else
        let pos := w0.srcPos
        if w0.srcLines.length ≤ pos then
          if w0.inflight = 0 ∧ w0.pending = [] then
            let rf := finish_job w0 .jobComplete
            (rf.1, a0 ++ rf.2)
          else (w0, a0)
        else
          let raw := w0.srcLines.getD pos []
          let w1 := { w0 with srcPos := pos + 1 }
          let line := pyStrip raw
          if line = [] then
            let rc := streamLoop env wn fuel w1
            (rc.1, a0 ++ rc.2)
          else
            let ln := payloadLen line
            if w1.bufferTotal < ln then
              let aw : List Act := [.put (.logE (.lineExceedsBuffer ln w1.bufferTotal))]
              if 0 < w1.inflight ∨ w1.pending ≠ [] then
                ({ w1 with srcPos := pos }, a0 ++ aw)
              else
                let w2 := { w1 with jobSent := w1.jobSent + 1 }
                let aSend : List Act := [.sendLine line, jobLineEv w2]
                let rs := read_sync_response w2 env.syncLines
                match rs.2.2 with
                | .ok =>
                  let w4 := { rs.1 with jobOk := rs.1.jobOk + 1 }
                  (w4, a0 ++ aw ++ aSend ++ rs.2.1 ++
                    [.put (.progress w4.jobOk w4.jobTotal), jobLineEv w4])
                | o =>
                  let rf := finish_job rs.1 (.jobStopped o)
                  (rf.1, a0 ++ aw ++ aSend ++ rs.2.1 ++ rf.2)
            else if w1.bufferTotal < w1.inflight + ln then
              ({ w1 with srcPos := pos }, a0)
            else if env.writeFailAt = some wn then
              let rf := finish_job w1 .serialWriteFailed
              (rf.1, a0 ++ rf.2)
            else
              let w2 := { w1 with inflight := w1.inflight + ln,
                                  pending := w1.pending ++ [ln],
                                  jobSent := w1.jobSent + 1 }
              let rc := streamLoop env (wn + 1) fuel w2
              (rc.1, a0 ++ [Act.writePayload line, jobLineEv w2] ++ rc.2)

/-- `_stream_step_buffered`: one buffered streaming step.  The fuel
`srcLines.length - srcPos + 1` suffices because every continuing loop
iteration advances `srcPos` within the source. -/
def stream_step_buffered (env : StreamEnv) (w : Worker) : Worker × List Act :=
  streamLoop env 0 (w.srcLines.length - w.srcPos + 1) w

/-- Steps 4–5 of one main-loop iteration (`run`, lines 1050–1061): drain
the incoming lines, then — when a buffered job is active — on a fatal
token issue the real-time hold byte and fail the job; otherwise fold any
observed acknowledgments into the job counters and publish progress. -/
def drain_and_handle (w : Worker) (lines : List (List Char)) :
    Worker × List Act :=
  let r := process_incoming_lines w lines
  let w1 := r.1
  let okCount := r.2.1
  let fatal := r.2.2.1
  let a1 := r.2.2.2
  if w1.jobActive ∧ w1.streamMode = .buffered then
    match fatal with
    | some f =>
      let rf := finish_job w1 (.jobStoppedFatal f)
      (rf.1, a1 ++ [Act.sendBytes [RT_HOLD]] ++ rf.2)
    | none =>
      if okCount ≠ 0 then
        let w2 := { w1 with jobOk := w1.jobOk + okCount }
        (w2, a1 ++ [.put (.progress w2.jobOk w2.jobTotal), jobLineEv w2])
      else (w1, a1)
  else (w1, a1)

/-! ## Override stepping (`App._send_override_steps`) -/

/-- The `while abs(diff) >= 10` loop: emit a ±10 real-time byte and move
`diff`/`current` by ten until the remaining difference is below ten.  The
source fixes `step10 = ±10` from the sign of the initial difference; the
sign of `diff` is invariant across the loop, so recomputing the step from
the current sign (as done here, which also matches the per-iteration
`plus10 if diff > 0 else minus10` byte choice of the source) is the same
function. -/
def overrideLoop10 (p10 m10 : Nat) (diff cur : Int) : List Nat × Int × Int :=
  if h : 10 ≤ diff.natAbs then
    if hd : 0 < diff then
      let r := overrideLoop10 p10 m10 (diff - 10) (cur + 10)
      (p10 :: r.1, r.2)
    else
      let r := overrideLoop10 p10 m10 (diff + 10) (cur - 10)
      (m10 :: r.1, r.2)
  else ([], diff, cur)
termination_by diff.natAbs
decreasing_by
  · omega
  · omega

/-- The `while diff != 0` loop: emit a ±1 real-time byte until the
difference is exhausted. -/
def overrideLoop1 (p1 m1 : Nat) (diff cur : Int) : List Nat × Int :=
  if h : diff = 0 then ([], cur)
  else if hd : 0 < diff then
    let r := overrideLoop1 p1 m1 (diff - 1) (cur + 1)
    (p1 :: r.1, r.2)
  else
    let r := overrideLoop1 p1 m1 (diff + 1) (cur - 1)
    (m1 :: r.1, r.2)
termination_by diff.natAbs
decreasing_by
  · omega
  · omega

/-- `App._send_override_steps`: clamp the target to the legal range, then
step the difference down greedily (tens first, then ones), returning the
emitted real-time bytes and the final percentage. -/
def send_override_steps (target current minVal maxVal : Int)
    (p10 m10 p1 m1 : Nat) : List Nat × Int :=
  let t := clamp target minVal maxVal
  let diff := t - current
  if diff = 0 then ([], current)
  else
    let r10 := overrideLoop10 p10 m10 diff current
    let r1 := overrideLoop1 p1 m1 r10.2.1 r10.2.2
    (r10.1 ++ r1.1, r1.2)

/-! ## Override-stepping lemmas -/

lemma overrideLoop10_nonneg (p10 m10 : Nat) :
    ∀ (n : Nat) (r cur : Int), 0 ≤ r → r < 10 →
      overrideLoop10 p10 m10 (10 * n + r) cur =
        (List.replicate n p10, r, cur + 10 * n) := by
  intro n
  induction n with
  | zero =>
    intro r cur h0 h10
    rw [overrideLoop10]
    rw [dif_neg (by omega)]
    simp
  | succ n ih =>
    intro r cur h0 h10
    rw [overrideLoop10]
    rw [dif_pos (by omega), dif_pos (by omega)]
    have harg : (10 * (n + 1 : Nat) + r) - 10 = 10 * (n : Nat) + r := by push_cast; ring
    rw [harg, ih r (cur + 10) h0 h10]
    dsimp only
    simp only [List.replicate_succ, Prod.mk.injEq, true_and, and_true,
      eq_self_iff_true]
    omega

lemma overrideLoop10_nonpos (p10 m10 : Nat) :
    ∀ (n : Nat) (r cur : Int), 0 ≤ r → r < 10 →
      overrideLoop10 p10 m10 (-(10 * n + r)) cur =
        (List.replicate n m10, -r, cur - 10 * n) := by
  intro n
  induction n with
  | zero =>
    intro r cur h0 h10
    rw [overrideLoop10]
    rw [dif_neg (by omega)]
    simp
  | succ n ih =>
    intro r cur h0 h10
    rw [overrideLoop10]
    rw [dif_pos (by omega), dif_neg (by omega)]
    have harg : (-(10 * (n + 1 : Nat) + r)) + 10 = -(10 * (n : Nat) + r) := by
      push_cast; ring
    rw [harg, ih r (cur - 10) h0 h10]
    dsimp only
    simp only [List.replicate_succ, Prod.mk.injEq, true_and, and_true,
      eq_self_iff_true]
    omega

lemma overrideLoop1_nonneg (p1 m1 : Nat) :
    ∀ (n : Nat) (cur : Int),
      overrideLoop1 p1 m1 (n : Int) cur = (List.replicate n p1, cur + n) := by
  intro n
  induction n with
  | zero =>
    intro cur
    rw [overrideLoop1]
    simp
  | succ n ih =>
    intro cur
    rw [overrideLoop1]
    rw [dif_neg (by omega), dif_pos (by omega)]
    have harg : ((n + 1 : Nat) : Int) - 1 = (n : Int) := by push_cast; ring
    rw [harg, ih (cur + 1)]
    dsimp only
    simp only [List.replicate_succ, Prod.mk.injEq, true_and, and_true,
      eq_self_iff_true]
    omega

lemma overrideLoop1_nonpos (p1 m1 : Nat) :
    ∀ (n : Nat) (cur : Int),
      overrideLoop1 p1 m1 (-(n : Int)) cur = (List.replicate n m1, cur - n) := by
  intro n
  induction n with
  | zero =>
    intro cur
    rw [overrideLoop1]
    simp
  | succ n ih =>
    intro cur
    rw [overrideLoop1]
    rw [dif_neg (by omega), dif_neg (by omega)]
    have harg : (-((n + 1 : Nat) : Int)) + 1 = -(n : Int) := by push_cast; ring
    rw [harg, ih (cur - 1)]
    dsimp only
    simp only [List.replicate_succ, Prod.mk.injEq, true_and, and_true,
      eq_self_iff_true]
    omega

lemma send_override_steps_eq (target current minVal maxVal : Int)
    (p10 m10 p1 m1 : Nat) :
    send_override_steps target current minVal maxVal p10 m10 p1 m1 =
      (List.replicate ((clamp target minVal maxVal - current).natAbs / 10)
         (if current < clamp target minVal maxVal then p10 else m10) ++
       List.replicate ((clamp target minVal maxVal - current).natAbs % 10)
         (if current < clamp target minVal maxVal then p1 else m1),
       clamp target minVal maxVal) := by
  unfold send_override_steps
  set t := clamp target minVal maxVal with ht
  clear_value t
  dsimp only
  set d : Nat := (t - current).natAbs with hd
  clear_value d
  rcases lt_trichotomy (t - current) 0 with hneg | hzero | hpos
  · have hnc : ¬ current < t := by omega
    rw [if_neg (by omega), if_neg hnc, if_neg hnc]
    have hdiff : t - current =
        -((10 * ((d / 10 : Nat) : Int) + ((d % 10 : Nat) : Int))) := by omega
    rw [hdiff, overrideLoop10_nonpos p10 m10 (d / 10) ((d % 10 : Nat) : Int)
      current (by positivity) (by exact_mod_cast Nat.mod_lt d (by norm_num))]
    dsimp only
    rw [overrideLoop1_nonpos p1 m1 (d % 10) (current - 10 * ((d / 10 : Nat) : Int))]
    dsimp only
    simp only [Prod.mk.injEq, true_and, and_true, eq_self_iff_true]
    omega
  · rw [if_pos hzero]
    have hd0 : d = 0 := by omega
    rw [hd0]
    simp only [Nat.zero_div, Nat.zero_mod, List.replicate_zero, List.nil_append,
      Prod.mk.injEq, true_and]
    omega
  · have hc : current < t := by omega
    rw [if_neg (by omega), if_pos hc, if_pos hc]
    have hdiff : t - current =
        (10 * ((d / 10 : Nat) : Int) + ((d % 10 : Nat) : Int)) := by omega
    rw [hdiff, overrideLoop10_nonneg p10 m10 (d / 10) ((d % 10 : Nat) : Int)
      current (by positivity) (by exact_mod_cast Nat.mod_lt d (by norm_num))]
    dsimp only
    rw [overrideLoop1_nonneg p1 m1 (d % 10) (current + 10 * ((d / 10 : Nat) : Int))]
    dsimp only
    simp only [Prod.mk.injEq, true_and, and_true, eq_self_iff_true]
    omega


/-! ## Claim theorems: override stepping, cancellation, sync timeouts -/

/-- A worker built from the source's default configuration (128-byte
receive buffer, auto-size and planner-throttle off, planner minimum 2, no
cancel-time unlock, default timeout constants). -/
def sampleWorker : Worker :=
  initWorker 128 false false 2 false DEFAULT_SYNC_TIMEOUT_S
    HOMING_SYNC_TIMEOUT_S SYSTEM_SYNC_TIMEOUT_S

/-- **C7**: the override stepping routine clamps the requested target to
the legal range, emits `|clamped − current| / 10` ten-point steps and
`|clamped − current| % 10` one-point steps (in the direction of the
difference), and ends exactly at the clamped target; in particular
100→150 gives five 10-steps and no 1-steps, 100→104 gives four 1-steps
and no 10-steps, and a request of 500 clamps to 200 before stepping. -/
theorem override_steps_clamped_greedy :
    (∀ (target current minVal maxVal : Int) (p10 m10 p1 m1 : Nat),
      send_override_steps target current minVal maxVal p10 m10 p1 m1 =
        (List.replicate ((clamp target minVal maxVal - current).natAbs / 10)
           (if current < clamp target minVal maxVal then p10 else m10) ++
         List.replicate ((clamp target minVal maxVal - current).natAbs % 10)
           (if current < clamp target minVal maxVal then p1 else m1),
         clamp target minVal maxVal)) ∧
    send_override_steps 150 100 10 200 RT_FEED_PLUS_10 RT_FEED_MINUS_10
        RT_FEED_PLUS_1 RT_FEED_MINUS_1 =
      (List.replicate 5 RT_FEED_PLUS_10, 150) ∧
    send_override_steps 104 100 10 200 RT_FEED_PLUS_10 RT_FEED_MINUS_10
        RT_FEED_PLUS_1 RT_FEED_MINUS_1 =
      (List.replicate 4 RT_FEED_PLUS_1, 104) ∧
    (clamp 500 10 200 = 200 ∧
     send_override_steps 500 100 10 200 RT_FEED_PLUS_10 RT_FEED_MINUS_10
         RT_FEED_PLUS_1 RT_FEED_MINUS_1 =
       (List.replicate 10 RT_FEED_PLUS_10, 200)) := by
  refine ⟨send_override_steps_eq, ?_, ?_, by decide, ?_⟩
  · rw [send_override_steps_eq]
    norm_num [clamp]
  · rw [send_override_steps_eq]
    norm_num [clamp]
  · rw [send_override_steps_eq]
    norm_num [clamp]

/-- **C8**: processing a cancel command from any mid-job state leaves the
engine idle — job inactive, sent and acknowledged counts 0, zero
in-flight bytes, an empty pending-length queue — and publishes the idle
job-state event, regardless of the in-flight accounting and of the
optional `$X` unlock exchange. -/
theorem cancel_clears_job (w : Worker) (syncLines : List (List Char)) :
    ((handle_cancel_job w syncLines).1.jobActive = false ∧
     (handle_cancel_job w syncLines).1.jobSent = 0 ∧
     (handle_cancel_job w syncLines).1.jobOk = 0) ∧
    ((handle_cancel_job w syncLines).1.inflight = 0 ∧
     (handle_cancel_job w syncLines).1.pending = []) ∧
    Act.put (UiEvent.jobState JobStateTag.idle) ∈ (handle_cancel_job w syncLines).2 := by
  unfold handle_cancel_job
  by_cases hcu : w.cancelUnlock
  · simp [hcu, cancel_job_local]
  · simp [hcu, cancel_job_local]

/-- **C9**: the synchronous acknowledgment deadline is selected by
command class — a stripped, upper-cased line starting with `$H` gets the
homing timeout, any other line starting with `$` gets the system timeout,
and every other line gets the default timeout; with the source's default
constants the allowances are ordered homing (60 s) > system (10 s) >
default (2 s). -/
theorem sync_timeout_by_command_class (w : Worker) (line : List Char) :
    ((("$H".toList).isPrefixOf (pyUpper (pyStrip line)) = true →
        sync_timeout_for_line w line = w.homingSyncTimeoutS) ∧
     (("$H".toList).isPrefixOf (pyUpper (pyStrip line)) = false →
        (['$']).isPrefixOf (pyUpper (pyStrip line)) = true →
        sync_timeout_for_line w line = w.systemSyncTimeoutS) ∧
     ((['$']).isPrefixOf (pyUpper (pyStrip line)) = false →
        sync_timeout_for_line w line = w.syncTimeoutS)) ∧
    (DEFAULT_SYNC_TIMEOUT_S < SYSTEM_SYNC_TIMEOUT_S ∧
     SYSTEM_SYNC_TIMEOUT_S < HOMING_SYNC_TIMEOUT_S) := by
  refine ⟨⟨?_, ?_, ?_⟩, by constructor <;> decide⟩
  · intro hH
    have hne : pyUpper (pyStrip line) ≠ [] := by
      intro he
      rw [he] at hH
      exact absurd hH (by decide)
    unfold sync_timeout_for_line
    rw [if_neg hne, if_pos hH]
  · intro hH hS
    have hne : pyUpper (pyStrip line) ≠ [] := by
      intro he
      rw [he] at hS
      exact absurd hS (by decide)
    unfold sync_timeout_for_line
    rw [if_neg hne, if_neg (by rw [hH]; exact Bool.false_ne_true), if_pos hS]
  · intro hS
    have hH : ("$H".toList).isPrefixOf (pyUpper (pyStrip line)) = false := by
      rcases hp : ("$H".toList).isPrefixOf (pyUpper (pyStrip line)) with _ | _
      · rfl
      · exfalso
        have : (['$']).isPrefixOf (pyUpper (pyStrip line)) = true := by
          rcases (List.isPrefixOf_iff_prefix.mp hp) with ⟨t, ht⟩
          exact List.isPrefixOf_iff_prefix.mpr ⟨'H' :: t, by rw [← ht]; rfl⟩
        rw [this] at hS
        simp at hS
    unfold sync_timeout_for_line
    by_cases hne : pyUpper (pyStrip line) = []
    · rw [if_pos hne]
    · rw [if_neg hne, if_neg (by rw [hH]; exact Bool.false_ne_true),
        if_neg (by rw [hS]; exact Bool.false_ne_true)]

/-- Witness for `sync_timeout_by_command_class`: the three command
classes at concrete lines (`" $h homing"`, `"$X"`, `"G1 X0"`) on the
default worker. -/
theorem sync_timeout_by_command_class_witness :
    sync_timeout_for_line sampleWorker (" $h homing".toList) = 60 ∧
    sync_timeout_for_line sampleWorker ("$X".toList) = 10 ∧
    sync_timeout_for_line sampleWorker ("G1 X0".toList) = 2 := by
  refine ⟨?_, ?_, ?_⟩
  · have h := (sync_timeout_by_command_class sampleWorker (" $h homing".toList)).1.1
      (by decide)
    rw [h]; decide
  · have h := (sync_timeout_by_command_class sampleWorker ("$X".toList)).1.2.1
      (by decide) (by decide)
    rw [h]; decide
  · have h := (sync_timeout_by_command_class sampleWorker ("G1 X0".toList)).1.2.2
      (by decide)
    rw [h]; decide



/-! ## Claim theorems: parser totality / malformed input -/

/-- **C5**: every status-parsing function is a total Lean function (so no
exception can propagate by construction), and a missing, malformed or
partial field yields the absent result: a vector field with fewer than
three comma-separated components, or a non-numeric component, parses to
`none`; a missing field makes the vector, `Bf`, feed, pin and accessory
accessors return `none` / the empty set; a `Bf` value that is not two
comma-separated integers parses to `none`. -/
theorem parsing_malformed_absent :
    (parse_vec3 none = none ∧
     ∀ csv, (splitChar ',' csv).length < 3 → parse_vec3 (some csv) = none) ∧
    (∀ csv, (pyFloat? ((splitChar ',' csv).getD 0 []) = none ∨
             pyFloat? ((splitChar ',' csv).getD 1 []) = none ∨
             pyFloat? ((splitChar ',' csv).getD 2 []) = none) →
       parse_vec3 (some csv) = none) ∧
    (∀ line, parse_field line keyMPos = none →
       parse_vec3 (parse_field line keyMPos) = none) ∧
    (∀ line, parse_field line keyBf = none → parse_bf_from_status line = none) ∧
    (∀ line bf, parse_field line keyBf = some bf → findSplit [','] bf = none →
       parse_bf_from_status line = none) ∧
    (∀ line bf p, parse_field line keyBf = some bf → findSplit [','] bf = some p →
       (pyInt? p.1 = none ∨ pyInt? p.2 = none) →
       parse_bf_from_status line = none) ∧
    (∀ line, parse_field line keyPn = none → parse_pins_from_status line = ∅) ∧
    (∀ line, parse_field line keyA = none → parse_accessories_from_status line = ∅) ∧
    (∀ line, parse_field line keyFS = none → parse_feed_from_status line = none) := by
  refine ⟨⟨rfl, ?_⟩, ?_, ?_, ?_, ?_, ?_, ?_, ?_, ?_⟩
  · intro csv h
    unfold parse_vec3
    by_cases hc : csv = []
    · simp [hc]
    · simp [hc, h]
  · intro csv h
    unfold parse_vec3
    by_cases hc : csv = []
    · simp [hc]
    · by_cases hl : (splitChar ',' csv).length < 3
      · simp [hc, hl]
      · cases h1 : pyFloat? ((splitChar ',' csv).getD 0 []) <;>
          cases h2 : pyFloat? ((splitChar ',' csv).getD 1 []) <;>
          cases h3 : pyFloat? ((splitChar ',' csv).getD 2 []) <;>
          simp_all
  · intro line h
    rw [h]
    rfl
  · intro line h
    unfold parse_bf_from_status
    rw [h]
  · intro line bf hf hsplit
    unfold parse_bf_from_status
    rw [hf]
    by_cases hbf : bf = []
    · simp [hbf]
    · simp [hbf, hsplit]
  · intro line bf p hf hsplit hint
    unfold parse_bf_from_status
    rw [hf]
    by_cases hbf : bf = []
    · simp [hbf]
    · cases h1 : pyInt? p.1 <;> cases h2 : pyInt? p.2 <;> simp_all [hbf, hsplit]
  · intro line h
    unfold parse_pins_from_status
    rw [h]
  · intro line h
    unfold parse_accessories_from_status
    rw [h]
  · intro line h
    unfold parse_feed_from_status
    rw [h]

/-- Witness for `parsing_malformed_absent`: concrete malformed inputs —
a two-component vector, a non-numeric vector, a line with no fields, a
one-component `Bf`, a non-integer `Bf`. -/
theorem parsing_malformed_absent_witness :
    parse_vec3 (some ("1,2".toList)) = none ∧
    parse_vec3 (some ("a,b,c".toList)) = none ∧
    parse_vec3 (parse_field ("<Idle>".toList) keyMPos) = none ∧
    parse_bf_from_status ("ok".toList) = none ∧
    parse_bf_from_status ("<Idle|Bf:14>".toList) = none ∧
    parse_bf_from_status ("<Idle|Bf:x,y>".toList) = none ∧
    parse_pins_from_status ("<Idle>".toList) = ∅ ∧
    parse_accessories_from_status ("<Idle>".toList) = ∅ ∧
    parse_feed_from_status ("<Idle>".toList) = none := by
  refine ⟨?_, ?_, ?_, ?_, ?_, ?_, ?_, ?_, ?_⟩
  · exact parsing_malformed_absent.1.2 ("1,2".toList) (by decide)
  · exact parsing_malformed_absent.2.1 ("a,b,c".toList) (Or.inl (by decide))
  · exact parsing_malformed_absent.2.2.1 ("<Idle>".toList) (by decide)
  · exact parsing_malformed_absent.2.2.2.1 ("ok".toList) (by decide)
  · exact parsing_malformed_absent.2.2.2.2.1 ("<Idle|Bf:14>".toList)
      ("14>".toList) (by decide) (by decide)
  · exact parsing_malformed_absent.2.2.2.2.2.1 ("<Idle|Bf:x,y>".toList)
      ("x,y>".toList) ("x".toList, "y>".toList) (by decide) (by decide)
      (Or.inl (by decide))
  · exact parsing_malformed_absent.2.2.2.2.2.2.1 ("<Idle>".toList) (by decide)
  · exact parsing_malformed_absent.2.2.2.2.2.2.2.1 ("<Idle>".toList) (by decide)
  · exact parsing_malformed_absent.2.2.2.2.2.2.2.2 ("<Idle>".toList) (by decide)



/-! ## Claim theorems: buffered-mode send window -/

/-- A quiet streaming environment: no serial input for a synchronous
fallback wait, no write failures. -/
def quietEnv : StreamEnv :=
  { syncLines := [], writeFailAt := none }

/-- A mid-job buffered streaming state: default 128-byte capacity, 100
bytes in flight, and a 26-character line (27-byte payload) next in the
source. -/
def cexStreamWorker : Worker :=
  { sampleWorker with
    jobActive := true, streamMode := .buffered, jobTotal := 10,
    jobFhOpen := true, srcLines := [List.replicate 26 'X'], srcPos := 0,
    inflight := 100, pending := [100] }

/-- **C2** counterexample: with 100 bytes in flight and a 27-byte payload
next, the payload fits the 128-byte capacity and 100 + 27 = 127 exceeds
capacity − 2 = 126, so by the claim the engine should rewind and not
consume the line; the code instead sends it (the source position and the
sent count advance): the per-line check is against the full capacity, not
capacity minus the 2-byte margin. -/
theorem stream_rewind_margin_cex :
    payloadLen (pyStrip (cexStreamWorker.srcLines.getD cexStreamWorker.srcPos []))
        ≤ cexStreamWorker.bufferTotal ∧
    cexStreamWorker.bufferTotal - 2 <
      cexStreamWorker.inflight +
        payloadLen (pyStrip (cexStreamWorker.srcLines.getD cexStreamWorker.srcPos [])) ∧
    ¬ ((stream_step_buffered quietEnv cexStreamWorker).1.srcPos =
         cexStreamWorker.srcPos ∧
       (stream_step_buffered quietEnv cexStreamWorker).1.jobSent =
         cexStreamWorker.jobSent) := by
  decide

/-- **C2** (amended): in a buffered streaming step, when the candidate
line's payload fits within the configured capacity but the in-flight
bytes plus the payload length would exceed the capacity itself, the
engine rewinds the source to before the line and takes no further lines
in that cycle — the step returns the state unchanged and performs no
action.  (The 2-byte margin governs only the loop-entry guard
`inflight < capacity − 2`, assumed here.) -/
theorem stream_rewind_on_overflow (env : StreamEnv) (w : Worker)
    (hrun : w.running = true) (hact : w.jobActive = true)
    (hpau : w.jobPaused = false)
    (hplan : planner_can_send w = (true, w, []))
    (hroom : w.inflight < w.bufferTotal - 2)
    (hpos : w.srcPos < w.srcLines.length)
    (hline : pyStrip (w.srcLines.getD w.srcPos []) ≠ [])
    (hfits : payloadLen (pyStrip (w.srcLines.getD w.srcPos [])) ≤ w.bufferTotal)
    (hover : w.bufferTotal <
      w.inflight + payloadLen (pyStrip (w.srcLines.getD w.srcPos []))) :
    stream_step_buffered env w = (w, []) := by
  unfold stream_step_buffered
  rw [streamLoop]
  rw [if_neg (by simp [hrun, hact, hpau])]
  rw [hplan]
  dsimp only
  rw [if_neg (by simp)]
  rw [if_neg (by omega)]
  rw [if_neg (by omega)]
  rw [if_neg hline]
  rw [if_neg (by omega)]
  rw [if_pos hover]

/-- A state with room below the margin (110 < 126) where the next
payload (21 bytes) still overflows the capacity (110 + 21 > 128). -/
def rewindWitWorker : Worker :=
  { sampleWorker with
    jobActive := true, streamMode := .buffered, jobTotal := 5,
    jobFhOpen := true, srcLines := [List.replicate 20 'Y'], srcPos := 0,
    inflight := 110, pending := [55, 55] }

/-- Witness for `stream_rewind_on_overflow` at `rewindWitWorker`. -/
theorem stream_rewind_on_overflow_witness :
    stream_step_buffered quietEnv rewindWitWorker = (rewindWitWorker, []) :=
  stream_rewind_on_overflow quietEnv rewindWitWorker (by decide) (by decide)
    (by decide) (by decide) (by decide) (by decide) (by decide) (by decide)
    (by decide)



/-! ## Field-preservation lemmas for the drain path -/

lemma update_bf_tuning_fields (w : Worker) (l : List Char) :
    (update_bf_tuning w l).1.jobActive = w.jobActive ∧
    (update_bf_tuning w l).1.streamMode = w.streamMode ∧
    (update_bf_tuning w l).1.jobOk = w.jobOk ∧
    (update_bf_tuning w l).1.jobTotal = w.jobTotal ∧
    (update_bf_tuning w l).1.jobSent = w.jobSent ∧
    (update_bf_tuning w l).1.jobPaused = w.jobPaused ∧
    (update_bf_tuning w l).1.pending = w.pending ∧
    (update_bf_tuning w l).1.inflight = w.inflight ∧
    w.bufferTotal ≤ (update_bf_tuning w l).1.bufferTotal := by
  unfold update_bf_tuning
  cases hbf : parse_bf_from_status l with
  | none => simp
  | some pr =>
    dsimp only
    split
    · next hcond => exact ⟨rfl, rfl, rfl, rfl, rfl, rfl, rfl, rfl, by dsimp only; omega⟩
    · simp

lemma handleStatusLine_fields (w : Worker) (l : List Char) :
    (handleStatusLine w l).1.jobActive = w.jobActive ∧
    (handleStatusLine w l).1.streamMode = w.streamMode ∧
    (handleStatusLine w l).1.jobOk = w.jobOk ∧
    (handleStatusLine w l).1.jobTotal = w.jobTotal ∧
    (handleStatusLine w l).1.jobSent = w.jobSent ∧
    (handleStatusLine w l).1.jobPaused = w.jobPaused ∧
    (handleStatusLine w l).1.pending = w.pending ∧
    (handleStatusLine w l).1.inflight = w.inflight ∧
    w.bufferTotal ≤ (handleStatusLine w l).1.bufferTotal := by
  unfold handleStatusLine
  dsimp only
  exact update_bf_tuning_fields _ l

lemma ackPop_fields (w : Worker) :
    (ackPop w).jobActive = w.jobActive ∧
    (ackPop w).streamMode = w.streamMode ∧
    (ackPop w).jobOk = w.jobOk ∧
    (ackPop w).jobTotal = w.jobTotal ∧
    (ackPop w).jobSent = w.jobSent ∧
    (ackPop w).jobPaused = w.jobPaused ∧
    (ackPop w).bufferTotal = w.bufferTotal := by
  unfold ackPop
  cases w.pending <;> simp

lemma process_incoming_lines_fields (lines : List (List Char)) :
    ∀ w : Worker,
      (process_incoming_lines w lines).1.jobActive = w.jobActive ∧
      (process_incoming_lines w lines).1.streamMode = w.streamMode ∧
      (process_incoming_lines w lines).1.jobOk = w.jobOk ∧
      (process_incoming_lines w lines).1.jobTotal = w.jobTotal ∧
      (process_incoming_lines w lines).1.jobSent = w.jobSent ∧
      (process_incoming_lines w lines).1.jobPaused = w.jobPaused := by
  induction lines with
  | nil => intro w; simp [process_incoming_lines]
  | cons l rest ih =>
    intro w
    unfold process_incoming_lines
    split
    · dsimp only
      have h1 := handleStatusLine_fields w l
      have h2 := ih (handleStatusLine w l).1
      exact ⟨h2.1.trans h1.1, h2.2.1.trans h1.2.1, h2.2.2.1.trans h1.2.2.1,
        h2.2.2.2.1.trans h1.2.2.2.1, h2.2.2.2.2.1.trans h1.2.2.2.2.1,
        h2.2.2.2.2.2.trans h1.2.2.2.2.2.1⟩
    · split
      · dsimp only
        have h1 := ackPop_fields w
        have h2 := ih (ackPop w)
        exact ⟨h2.1.trans h1.1, h2.2.1.trans h1.2.1, h2.2.2.1.trans h1.2.2.1,
          h2.2.2.2.1.trans h1.2.2.2.1, h2.2.2.2.2.1.trans h1.2.2.2.2.1,
          h2.2.2.2.2.2.trans h1.2.2.2.2.2.1⟩
      · split
        · dsimp only
          have h1 := ackPop_fields w
          have h2 := ih (ackPop w)
          exact ⟨h2.1.trans h1.1, h2.2.1.trans h1.2.1, h2.2.2.1.trans h1.2.2.1,
            h2.2.2.2.1.trans h1.2.2.2.1, h2.2.2.2.2.1.trans h1.2.2.2.2.1,
            h2.2.2.2.2.2.trans h1.2.2.2.2.2.1⟩
        · dsimp only
          exact ih w

/-- In a drain pass that reports no fatal token, every acknowledgment
popped an entry: the resulting queue is the original queue with the first
`ok_count` entries dropped (provided at least that many were pending). -/
lemma process_incoming_lines_drop (lines : List (List Char)) :
    ∀ w : Worker,
      (process_incoming_lines w lines).2.2.1 = none →
      (process_incoming_lines w lines).2.1 ≤ w.pending.length →
      (process_incoming_lines w lines).1.pending =
        w.pending.drop (process_incoming_lines w lines).2.1 := by
  induction lines with
  | nil => intro w _ _; simp [process_incoming_lines]
  | cons l rest ih =>
    intro w hf hk
    unfold process_incoming_lines at hf hk ⊢
    by_cases hst : isStatusLine l = true
    · rw [if_pos hst] at hf hk ⊢
      dsimp only at hf hk ⊢
      have h1 := (handleStatusLine_fields w l).2.2.2.2.2.2.1
      rw [← h1] at hk
      rw [ih _ hf hk, h1]
    · by_cases hok : l = ['o', 'k']
      · rw [if_neg hst, if_pos hok] at hf hk ⊢
        dsimp only at hf hk ⊢
        cases hp : w.pending with
        | nil =>
          exfalso
          rw [hp] at hk
          simp at hk
        | cons h t =>
          have hpend : (ackPop w).pending = t := by
            unfold ackPop
            rw [hp]
          have hlen : (process_incoming_lines (ackPop w) rest).2.1 ≤
              (ackPop w).pending.length := by
            rw [hpend]
            rw [hp] at hk
            simp at hk
            omega
          have hres := ih (ackPop w) hf hlen
          simp [hres, hpend, hp]
      · by_cases herr : isErrAlarm l = true
        · exfalso
          rw [if_neg hst, if_neg hok, if_pos herr] at hf
          dsimp only at hf
          exact Option.noConfusion hf
        · rw [if_neg hst, if_neg hok, if_neg herr] at hf hk ⊢
          dsimp only at hf hk ⊢
          exact ih w hf hk


/-! ## Claim theorems: buffered-mode drain handling (main-loop step 5) -/

/-- A buffered job one acknowledgment away from its total: one line sent,
5 bytes in flight, source exhausted. -/
def cexDrainWorker : Worker :=
  { sampleWorker with
    jobActive := true, streamMode := .buffered, jobTotal := 1, jobSent := 1,
    jobFhOpen := true, srcLines := ["G1X0".toList], srcPos := 1,
    inflight := 5, pending := [5] }

/-- **C3** counterexample: after draining the final `ok`, the
acknowledged count reaches the total, yet the job does not terminate in
that iteration — it stays active and neither an idle job-state event nor
a completion log is published.  Completion is signalled only by a later
streaming step at end-of-source. -/
theorem drain_total_reached_no_finish_cex :
    (drain_and_handle cexDrainWorker [['o', 'k']]).1.jobOk =
      cexDrainWorker.jobTotal ∧
    (drain_and_handle cexDrainWorker [['o', 'k']]).1.jobActive = true ∧
    Act.put (UiEvent.jobState JobStateTag.idle) ∉
      (drain_and_handle cexDrainWorker [['o', 'k']]).2 ∧
    Act.put (UiEvent.logE LogMsg.jobComplete) ∉
      (drain_and_handle cexDrainWorker [['o', 'k']]).2 := by
  decide

/-- **C3** (amended): in a main-loop iteration with buffered streaming
active, (i) a fatal token observed in the drain pass makes the engine
issue the real-time hold byte and terminate the job with a failure event
carrying the fatal message; (ii) otherwise `k ≥ 1` observed
acknowledgments advance the acknowledged count by `k`, pop `k` entries
from the pending-length queue and publish a progress event, while the job
stays active even when the count reaches the total; (iii) the success
termination happens in a buffered streaming step once the source is
exhausted with no bytes in flight: the job is cleared, the idle job-state
event and the completion log are published. -/
theorem buffered_drain_and_completion :
    (∀ (w : Worker) (lines : List (List Char)) (f : List Char),
       w.jobActive = true → w.streamMode = .buffered →
       (process_incoming_lines w lines).2.2.1 = some f →
       (drain_and_handle w lines).1.jobActive = false ∧
       Act.sendBytes [RT_HOLD] ∈ (drain_and_handle w lines).2 ∧
       Act.put (UiEvent.logE (LogMsg.jobStoppedFatal f)) ∈
         (drain_and_handle w lines).2) ∧
    (∀ (w : Worker) (lines : List (List Char)),
       w.jobActive = true → w.streamMode = .buffered →
       (process_incoming_lines w lines).2.2.1 = none →
       (process_incoming_lines w lines).2.1 ≠ 0 →
       (process_incoming_lines w lines).2.1 ≤ w.pending.length →
       (drain_and_handle w lines).1.jobOk =
         w.jobOk + (process_incoming_lines w lines).2.1 ∧
       (drain_and_handle w lines).1.pending =
         w.pending.drop (process_incoming_lines w lines).2.1 ∧
       Act.put (UiEvent.progress (w.jobOk + (process_incoming_lines w lines).2.1)
         w.jobTotal) ∈ (drain_and_handle w lines).2 ∧
       (drain_and_handle w lines).1.jobActive = true) ∧
    (∀ (env : StreamEnv) (w : Worker),
       w.running = true → w.jobActive = true → w.jobPaused = false →
       planner_can_send w = (true, w, []) →
       2 < w.bufferTotal →
       w.srcLines.length ≤ w.srcPos →
       w.inflight = 0 → w.pending = [] →
       (stream_step_buffered env w).1.jobActive = false ∧
       Act.put (UiEvent.jobState JobStateTag.idle) ∈ (stream_step_buffered env w).2 ∧
       Act.put (UiEvent.logE LogMsg.jobComplete) ∈ (stream_step_buffered env w).2) := by
  refine ⟨?_, ?_, ?_⟩
  · intro w lines f hact hsm hf
    have hp := process_incoming_lines_fields lines w
    unfold drain_and_handle
    dsimp only
    rw [if_pos ⟨hp.1.trans hact, hp.2.1.trans hsm⟩, hf]
    dsimp only
    refine ⟨rfl, ?_, ?_⟩ <;> simp [finish_job]
  · intro w lines hact hsm hf hk hlen
    have hp := process_incoming_lines_fields lines w
    have hdrop := process_incoming_lines_drop lines w hf hlen
    unfold drain_and_handle
    dsimp only
    rw [if_pos ⟨hp.1.trans hact, hp.2.1.trans hsm⟩, hf]
    dsimp only
    rw [if_pos hk]
    dsimp only
    refine ⟨?_, hdrop, ?_, ?_⟩
    · rw [hp.2.2.1]
    · rw [hp.2.2.1, hp.2.2.2.1]
      simp
    · rw [hp.1, hact]
  · intro env w hrun hact hpau hplan hbt heof hin hpend
    unfold stream_step_buffered
    rw [streamLoop]
    rw [if_neg (by simp [hrun, hact, hpau])]
    rw [hplan]
    dsimp only
    rw [if_neg (by simp)]
    rw [if_neg (by omega)]
    rw [if_pos heof, if_pos ⟨hin, hpend⟩]
    refine ⟨rfl, ?_, ?_⟩ <;> simp [finish_job]

/-- A buffered job whose source is exhausted and whose window is empty:
the next streaming step completes it. -/
def finishWitWorker : Worker :=
  { sampleWorker with
    jobActive := true, streamMode := .buffered, jobTotal := 2, jobSent := 2,
    jobOk := 2, jobFhOpen := true, srcLines := ["G1X0".toList, "G1X1".toList],
    srcPos := 2, inflight := 0, pending := [] }

/-- Witness for `buffered_drain_and_completion`: a fatal drain on
`cexStreamWorker`, a two-`ok` drain on `rewindWitWorker`, and the
completing streaming step on `finishWitWorker`. -/
theorem buffered_drain_and_completion_witness :
    ((drain_and_handle cexStreamWorker [("error:9".toList)]).1.jobActive = false ∧
     Act.sendBytes [RT_HOLD] ∈
       (drain_and_handle cexStreamWorker [("error:9".toList)]).2 ∧
     Act.put (UiEvent.logE (LogMsg.jobStoppedFatal ("error:9".toList))) ∈
       (drain_and_handle cexStreamWorker [("error:9".toList)]).2) ∧
    ((drain_and_handle rewindWitWorker [['o', 'k'], ['o', 'k']]).1.jobOk =
       rewindWitWorker.jobOk + 2 ∧
     (drain_and_handle rewindWitWorker [['o', 'k'], ['o', 'k']]).1.pending = []) ∧
    ((stream_step_buffered quietEnv finishWitWorker).1.jobActive = false ∧
     Act.put (UiEvent.logE LogMsg.jobComplete) ∈
       (stream_step_buffered quietEnv finishWitWorker).2) := by
  refine ⟨?_, ?_, ?_⟩
  · exact (buffered_drain_and_completion.1 cexStreamWorker [("error:9".toList)]
      ("error:9".toList) (by decide) (by decide) (by decide))
  · have h := buffered_drain_and_completion.2.1 rewindWitWorker
      [['o', 'k'], ['o', 'k']] (by decide) (by decide) (by decide) (by decide)
      (by decide)
    exact ⟨h.1.trans (by decide), h.2.1.trans (by decide)⟩
  · have h := buffered_drain_and_completion.2.2 quietEnv finishWitWorker
      (by decide) (by decide) (by decide) (by decide) (by decide) (by decide)
      (by decide) (by decide)
    exact ⟨h.1, h.2.2⟩



/-! ## The flow-control invariant (claim C1) -/

/-- The flow-control window invariant: the in-flight byte counter equals
the sum of the pending-length queue and never exceeds the configured
capacity. -/
def FlowInv (w : Worker) : Prop :=
  w.inflight = w.pending.sum ∧ w.inflight ≤ w.bufferTotal

lemma planner_can_send_fields (w : Worker) :
    (planner_can_send w).2.1.pending = w.pending ∧
    (planner_can_send w).2.1.inflight = w.inflight ∧
    (planner_can_send w).2.1.bufferTotal = w.bufferTotal := by
  unfold planner_can_send
  split_ifs <;> try exact ⟨rfl, rfl, rfl⟩
  cases w.lastPlannerFree <;> exact ⟨rfl, rfl, rfl⟩

lemma flowInv_update_bf_tuning (w : Worker) (l : List Char) (h : FlowInv w) :
    FlowInv (update_bf_tuning w l).1 := by
  have hf := update_bf_tuning_fields w l
  constructor
  · rw [hf.2.2.2.2.2.2.2.1, hf.2.2.2.2.2.2.1]
    exact h.1
  · rw [hf.2.2.2.2.2.2.2.1]
    exact le_trans h.2 hf.2.2.2.2.2.2.2.2

lemma flowInv_handleStatusLine (w : Worker) (l : List Char) (h : FlowInv w) :
    FlowInv (handleStatusLine w l).1 := by
  unfold handleStatusLine
  dsimp only
  exact flowInv_update_bf_tuning _ l h

lemma flowInv_ackPop (w : Worker) (h : FlowInv w) : FlowInv (ackPop w) := by
  unfold ackPop
  cases hp : w.pending with
  | nil => exact h
  | cons a t =>
    have h1 := h.1
    rw [hp] at h1
    simp only [List.sum_cons] at h1
    constructor
    · dsimp only
      omega
    · dsimp only
      have := h.2
      omega

lemma flowInv_process_incoming_lines (lines : List (List Char)) :
    ∀ w : Worker, FlowInv w → FlowInv (process_incoming_lines w lines).1 := by
  induction lines with
  | nil => intro w h; exact h
  | cons l rest ih =>
    intro w h
    unfold process_incoming_lines
    by_cases hst : isStatusLine l = true
    · rw [if_pos hst]
      exact ih _ (flowInv_handleStatusLine w l h)
    · by_cases hok : l = ['o', 'k']
      · rw [if_neg hst, if_pos hok]
        exact ih _ (flowInv_ackPop w h)
      · by_cases herr : isErrAlarm l = true
        · rw [if_neg hst, if_neg hok, if_pos herr]
          exact ih _ (flowInv_ackPop w h)
        · rw [if_neg hst, if_neg hok, if_neg herr]
          exact ih _ h

lemma flowInv_read_sync_response (lines : List (List Char)) :
    ∀ w : Worker, FlowInv w → FlowInv (read_sync_response w lines).1 := by
  induction lines with
  | nil => intro w h; exact h
  | cons l rest ih =>
    intro w h
    unfold read_sync_response
    by_cases hst : isStatusLine l = true
    · rw [if_pos hst]
      exact ih _ (flowInv_handleStatusLine w l h)
    · by_cases hok : l = ['o', 'k']
      · rw [if_neg hst, if_pos hok]
        exact h
      · by_cases herr : isErrAlarm l = true
        · rw [if_neg hst, if_neg hok, if_pos herr]
          exact h
        · rw [if_neg hst, if_neg hok, if_neg herr]
          exact ih _ h

lemma flowInv_finish_job (w : Worker) (msg : LogMsg) :
    FlowInv (finish_job w msg).1 :=
  ⟨rfl, Nat.zero_le _⟩

lemma flowInv_cancel_job_local (w : Worker) :
    FlowInv (cancel_job_local w).1 :=
  ⟨rfl, Nat.zero_le _⟩

lemma flowInv_streamLoop (env : StreamEnv) :
    ∀ (fuel : Nat) (wn : Nat) (w : Worker), FlowInv w →
      FlowInv (streamLoop env wn fuel w).1 := by
  intro fuel
  induction fuel with
  | zero => intro wn w h; exact h
  | succ fuel ih =>
    intro wn w h
    rw [streamLoop]
    have hpf := planner_can_send_fields w
    have hpinv : FlowInv (planner_can_send w).2.1 := by
      constructor
      · rw [hpf.2.1, hpf.1]; exact h.1
      · rw [hpf.2.1, hpf.2.2]; exact h.2
    by_cases hg : w.running ∧ w.jobActive ∧ ¬ w.jobPaused
    swap
    · rw [if_pos hg]; exact h
    rw [if_neg (not_not_intro hg)]
    dsimp only
    by_cases hcan : (planner_can_send w).1
    swap
    · rw [if_pos (by simpa using hcan)]; exact hpinv
    rw [if_neg (by simpa using hcan)]
    by_cases hfull : (planner_can_send w).2.1.bufferTotal - 2 ≤
        (planner_can_send w).2.1.inflight
    · rw [if_pos hfull]; exact hpinv
    rw [if_neg hfull]
    by_cases heof : (planner_can_send w).2.1.srcLines.length ≤
        (planner_can_send w).2.1.srcPos
    · rw [if_pos heof]
      by_cases hempty : (planner_can_send w).2.1.inflight = 0 ∧
          (planner_can_send w).2.1.pending = []
      · rw [if_pos hempty]
        dsimp only
        exact flowInv_finish_job _ _
      · rw [if_neg hempty]; exact hpinv
    rw [if_neg heof]
    by_cases hblank : pyStrip ((planner_can_send w).2.1.srcLines.getD
        (planner_can_send w).2.1.srcPos []) = []
    · rw [if_pos hblank]
      dsimp only
      exact ih wn _ hpinv
    rw [if_neg hblank]
    by_cases hbig : (planner_can_send w).2.1.bufferTotal <
        payloadLen (pyStrip ((planner_can_send w).2.1.srcLines.getD
          (planner_can_send w).2.1.srcPos []))
    · rw [if_pos hbig]
      by_cases hwait : 0 < (planner_can_send w).2.1.inflight ∨
          (planner_can_send w).2.1.pending ≠ []
      · rw [if_pos hwait]; exact hpinv
      rw [if_neg hwait]
      split
      · refine ⟨(flowInv_read_sync_response env.syncLines _ ?_).1,
          (flowInv_read_sync_response env.syncLines _ ?_).2⟩ <;>
          exact ⟨hpinv.1, hpinv.2⟩
      · dsimp only
        exact flowInv_finish_job _ _
    rw [if_neg hbig]
    by_cases hcap : (planner_can_send w).2.1.bufferTotal <
        (planner_can_send w).2.1.inflight +
          payloadLen (pyStrip ((planner_can_send w).2.1.srcLines.getD
            (planner_can_send w).2.1.srcPos []))
    · rw [if_pos hcap]; exact hpinv
    rw [if_neg hcap]
    by_cases hwf : env.writeFailAt = some wn
    · rw [if_pos hwf]
      dsimp only
      exact flowInv_finish_job _ _
    rw [if_neg hwf]
    dsimp only
    refine ih (wn + 1) _ ?_
    obtain ⟨hi1, hi2⟩ := hpinv
    constructor
    · dsimp only
      rw [List.sum_append]
      simp only [List.sum_cons, List.sum_nil]
      omega
    · dsimp only
      omega

/-- The states reachable by the buffered-mode operations the claim
quantifies over: worker construction, job start, buffered streaming
steps, drain passes (acknowledgments and error/alarm tokens), job
completion, and the cancel paths. -/
inductive Reach : Worker → Prop
  | init (rx : Int) (autos throttle : Bool) (pfm : Int) (cu : Bool)
      (t1 t2 t3 : ℚ) : Reach (initWorker rx autos throttle pfm cu t1 t2 t3)
  | stream (env : StreamEnv) {w : Worker} :
      Reach w → Reach (stream_step_buffered env w).1
  | drain (lines : List (List Char)) {w : Worker} :
      Reach w → Reach (drain_and_handle w lines).1
  | start (path : List Char) (total : Nat) (mode : List Char)
      (contents : List (List Char)) {w : Worker} :
      Reach w → Reach (start_job_from_file w path total mode contents).1
  | finish (msg : LogMsg) {w : Worker} : Reach w → Reach (finish_job w msg).1
  | cancelLocal {w : Worker} : Reach w → Reach (cancel_job_local w).1
  | cancelCmd (syncLines : List (List Char)) {w : Worker} :
      Reach w → Reach (handle_cancel_job w syncLines).1
  | softReset {w : Worker} : Reach w → Reach (handle_soft_reset w).1

lemma flowInv_drain_and_handle (w : Worker) (lines : List (List Char))
    (h : FlowInv w) : FlowInv (drain_and_handle w lines).1 := by
  unfold drain_and_handle
  dsimp only
  have hpic := flowInv_process_incoming_lines lines w h
  split
  · split
    · dsimp only
      exact flowInv_finish_job _ _
    · split
      · exact ⟨hpic.1, hpic.2⟩
      · exact hpic
  · exact hpic

lemma flowInv_handle_cancel_job (w : Worker) (syncLines : List (List Char)) :
    FlowInv (handle_cancel_job w syncLines).1 := by
  unfold handle_cancel_job
  split_ifs <;> exact flowInv_cancel_job_local _

lemma flowInv_handle_soft_reset (w : Worker) :
    FlowInv (handle_soft_reset w).1 :=
  flowInv_cancel_job_local _

/-- **C1**: at every point of any sequence of buffered-mode operations —
sends of a streaming step, acknowledgments and error/alarm tokens of a
drain pass, job starts, job completions and cancels — the in-flight byte
counter equals the sum of the pending-length queue and never exceeds the
configured buffer capacity. -/
theorem flow_window_invariant (w : Worker) (h : Reach w) :
    w.inflight = w.pending.sum ∧ w.inflight ≤ w.bufferTotal := by
  induction h with
  | init rx autos throttle pfm cu t1 t2 t3 => exact ⟨rfl, Nat.zero_le _⟩
  | stream env _ ih => exact flowInv_streamLoop env _ 0 _ ih
  | drain lines _ ih => exact flowInv_drain_and_handle _ lines ih
  | start path total mode contents _ ih => exact ⟨rfl, Nat.zero_le _⟩
  | finish msg _ ih => exact flowInv_finish_job _ msg
  | cancelLocal _ ih => exact flowInv_cancel_job_local _
  | cancelCmd syncLines _ ih => exact flowInv_handle_cancel_job _ syncLines
  | softReset _ ih => exact flowInv_handle_soft_reset _

/-- Witness for `flow_window_invariant`: a concrete reachable state —
default worker, buffered job started with three lines, one streaming step
and a drain of two acknowledgments — satisfies the invariant. -/
theorem flow_window_invariant_witness :
    (drain_and_handle
        (stream_step_buffered quietEnv
          (start_job_from_file sampleWorker ("job.nc".toList) 3
            ("buffered".toList)
            [("G1X0".toList), ("G1X1".toList), ("G1X2".toList)]).1).1
        [['o', 'k'], ['o', 'k']]).1.inflight =
      (drain_and_handle
        (stream_step_buffered quietEnv
          (start_job_from_file sampleWorker ("job.nc".toList) 3
            ("buffered".toList)
            [("G1X0".toList), ("G1X1".toList), ("G1X2".toList)]).1).1
        [['o', 'k'], ['o', 'k']]).1.pending.sum ∧
    (drain_and_handle
        (stream_step_buffered quietEnv
          (start_job_from_file sampleWorker ("job.nc".toList) 3
            ("buffered".toList)
            [("G1X0".toList), ("G1X1".toList), ("G1X2".toList)]).1).1
        [['o', 'k'], ['o', 'k']]).1.inflight ≤
      (drain_and_handle
        (stream_step_buffered quietEnv
          (start_job_from_file sampleWorker ("job.nc".toList) 3
            ("buffered".toList)
            [("G1X0".toList), ("G1X1".toList), ("G1X2".toList)]).1).1
        [['o', 'k'], ['o', 'k']]).1.bufferTotal :=
  flow_window_invariant _
    (Reach.drain [['o', 'k'], ['o', 'k']]
      (Reach.stream quietEnv
        (Reach.start ("job.nc".toList) 3 ("buffered".toList)
          [("G1X0".toList), ("G1X1".toList), ("G1X2".toList)]
          (Reach.init 128 false false 2 false DEFAULT_SYNC_TIMEOUT_S
            HOMING_SYNC_TIMEOUT_S SYSTEM_SYNC_TIMEOUT_S))))



/-! ## Sanitizer lemmas (claims C6, C10) -/

lemma removeWs_cons_ws (c : Char) (r : List Char) (h : pySpace c = true) :
    removeWs (c :: r) = removeWs r := by
  unfold removeWs
  rw [List.filter_cons_of_neg (by simp [h])]

lemma removeWs_cons_keep (c : Char) (r : List Char) (h : pySpace c = false) :
    removeWs (c :: r) = c :: removeWs r := by
  unfold removeWs
  rw [List.filter_cons_of_pos (by simp [h])]

lemma stripParensAux_open (d : Nat) (r : List Char) :
    stripParensAux d ('(' :: r) = stripParensAux (d + 1) r := rfl

lemma stripParensAux_close (d : Nat) (r : List Char) :
    stripParensAux d (')' :: r) = stripParensAux (d - 1) r := rfl

lemma stripParensAux_other (d : Nat) (c : Char) (r : List Char)
    (h1 : c ≠ '(') (h2 : c ≠ ')') :
    stripParensAux d (c :: r) =
      if d = 0 then c :: stripParensAux 0 r else stripParensAux d r := by
  conv_lhs => rw [stripParensAux]
  rw [if_neg h1, if_neg h2]

lemma removeWs_dropWhile (l : List Char) :
    removeWs (l.dropWhile pySpace) = removeWs l := by
  induction l with
  | nil => rfl
  | cons c r ih =>
    by_cases hc : pySpace c
    · rw [List.dropWhile_cons_of_pos hc, ih]
      unfold removeWs
      rw [List.filter_cons_of_neg (by simp [hc])]
    · rw [List.dropWhile_cons_of_neg hc]

lemma removeWs_reverse (l : List Char) :
    removeWs l.reverse = (removeWs l).reverse := by
  unfold removeWs
  exact List.filter_reverse _ l

lemma removeWs_pyStrip (l : List Char) :
    removeWs (pyStrip l) = removeWs l := by
  unfold pyStrip
  rw [removeWs_reverse, removeWs_dropWhile, removeWs_reverse,
    List.reverse_reverse, removeWs_dropWhile]

lemma removeWs_takeWhile (l : List Char) :
    removeWs (l.takeWhile fun c => c ≠ ';') =
      (removeWs l).takeWhile fun c => c ≠ ';' := by
  induction l with
  | nil => rfl
  | cons c r ih =>
    by_cases hsemi : c = ';'
    · subst hsemi
      rw [List.takeWhile_cons_of_neg (by simp)]
      rw [removeWs_cons_keep _ _ (by decide)]
      rw [List.takeWhile_cons_of_neg (by simp)]
      rfl
    · rw [List.takeWhile_cons_of_pos (by simp [hsemi])]
      by_cases hws : pySpace c
      · rw [removeWs_cons_ws _ _ hws, removeWs_cons_ws _ _ hws, ih]
      · rw [removeWs_cons_keep _ _ (by simpa using hws),
          removeWs_cons_keep _ _ (by simpa using hws),
          List.takeWhile_cons_of_pos (by simp [hsemi]), ih]

lemma removeWs_stripParensAux (l : List Char) :
    ∀ d : Nat, stripParensAux d (removeWs l) = removeWs (stripParensAux d l) := by
  induction l with
  | nil => intro d; rfl
  | cons c r ih =>
    intro d
    by_cases hop : c = '('
    · subst hop
      rw [removeWs_cons_keep _ _ (by decide), stripParensAux_open,
        stripParensAux_open, ih]
    · by_cases hcl : c = ')'
      · subst hcl
        rw [removeWs_cons_keep _ _ (by decide), stripParensAux_close,
          stripParensAux_close, ih]
      · by_cases hws : pySpace c
        · rw [removeWs_cons_ws _ _ hws, stripParensAux_other d c r hop hcl]
          by_cases hd : d = 0
          · rw [if_pos hd, removeWs_cons_ws _ _ hws, hd, ih]
          · rw [if_neg hd, ih]
        · rw [removeWs_cons_keep _ _ (by simpa using hws),
            stripParensAux_other d c (removeWs r) hop hcl,
            stripParensAux_other d c r hop hcl]
          by_cases hd : d = 0
          · rw [if_pos hd, if_pos hd,
              removeWs_cons_keep _ _ (by simpa using hws), ih 0]
          · rw [if_neg hd, if_neg hd, ih]

lemma findSplit_singleton_cons_ne (c a : Char) (r : List Char) (h : a ≠ c) :
    findSplit [c] (a :: r) = (findSplit [c] r).map fun p => (a :: p.1, p.2) := by
  conv_lhs => rw [findSplit]
  rw [if_neg (by simp [List.isPrefixOf]; exact fun he => h he.symm)]

lemma splitOnceLeft_singleton (c : Char) (l : List Char) :
    splitOnceLeft [c] l = l.takeWhile fun x => x ≠ c := by
  induction l with
  | nil => rfl
  | cons a r ih =>
    by_cases hac : a = c
    · subst hac
      unfold splitOnceLeft findSplit
      rw [if_pos (by simp [List.isPrefixOf])]
      rw [List.takeWhile_cons_of_neg (by simp)]
    · rw [List.takeWhile_cons_of_pos (by simp [hac])]
      have hih : splitOnceLeft [c] r = r.takeWhile fun x => x ≠ c := ih
      unfold splitOnceLeft at hih ⊢
      rw [findSplit_singleton_cons_ne c a r hac]
      cases hf : findSplit [c] r with
      | none =>
        rw [hf] at hih
        show a :: r = a :: (r.takeWhile fun x => x ≠ c)
        exact congrArg _ hih
      | some p =>
        rw [hf] at hih
        show a :: p.1 = a :: (r.takeWhile fun x => x ≠ c)
        exact congrArg _ hih

lemma takeWhile_of_not_contains (c : Char) (l : List Char)
    (h : pyContains [c] l = false) : l.takeWhile (fun x => x ≠ c) = l := by
  induction l with
  | nil => rfl
  | cons a r ih =>
    by_cases hac : a = c
    · exfalso
      subst hac
      unfold pyContains findSplit at h
      rw [if_pos (by simp [List.isPrefixOf])] at h
      simp at h
    · have hr : pyContains [c] r = false := by
        unfold pyContains at h ⊢
        rw [findSplit_singleton_cons_ne c a r hac] at h
        cases hf : findSplit [c] r with
        | none => rfl
        | some p =>
          exfalso
          rw [hf] at h
          simp at h
      rw [List.takeWhile_cons_of_pos (by simp [hac]), ih hr]

/-- The normal form of the sanitizer: parenthesis comments removed, then
truncated at the first `;`, then all whitespace deleted and the result
upper-cased.  The source's intermediate `strip` calls and emptiness
guards do not change this value. -/
lemma clean_gcode_line_normal (s : List Char) :
    clean_gcode_line s =
      pyUpper (removeWs ((stripParensAux 0 s).takeWhile fun c => c ≠ ';')) := by
  unfold clean_gcode_line
  have key : ∀ t : List Char,
      removeWs ((stripParensAux 0 t).takeWhile fun c => c ≠ ';') =
        removeWs ((stripParensAux 0 (pyStrip t)).takeWhile fun c => c ≠ ';') := by
    intro t
    rw [removeWs_takeWhile, removeWs_takeWhile, ← removeWs_stripParensAux,
      ← removeWs_stripParensAux, removeWs_pyStrip]
  by_cases h0 : pyStrip s = []
  · rw [if_pos h0]
    rw [key s, h0]
    rfl
  · rw [if_neg h0]
    dsimp only
    set s1 := pyStrip (stripParensAux 0 (pyStrip s)) with hs1
    have hchain : ∀ s2 : List Char,
        removeWs s2 = removeWs (s1.takeWhile fun c => c ≠ ';') →
        removeWs s2 =
          removeWs ((stripParensAux 0 s).takeWhile fun c => c ≠ ';') := by
      intro s2 h2
      rw [h2, removeWs_takeWhile, hs1, removeWs_pyStrip,
        ← removeWs_stripParensAux, removeWs_pyStrip s,
        removeWs_stripParensAux, ← removeWs_takeWhile]
    by_cases hsemi : pyContains [';'] s1 = true
    · simp only [hsemi, eq_self_iff_true, ite_true]
      have h2 : removeWs (pyStrip (splitOnceLeft [';'] s1)) =
          removeWs (s1.takeWhile fun c => c ≠ ';') := by
        rw [removeWs_pyStrip, splitOnceLeft_singleton]
      have hkey2 := hchain _ h2
      by_cases hempty : pyStrip (splitOnceLeft [';'] s1) = []
      · rw [if_pos hempty]
        rw [hempty] at hkey2
        rw [← hkey2]
        rfl
      · rw [if_neg hempty]
        unfold pyUpper
        rw [hkey2]
    · have hsemi2 : pyContains [';'] s1 = false := by simpa using hsemi
      simp only [hsemi2, Bool.false_eq_true, ite_false]
      have h2 : removeWs s1 = removeWs (s1.takeWhile fun c => c ≠ ';') := by
        rw [takeWhile_of_not_contains ';' s1 hsemi2]
      have hkey2 := hchain _ h2
      by_cases hempty : s1 = []
      · rw [if_pos hempty]
        rw [hempty] at hkey2
        rw [← hkey2]
        rfl
      · rw [if_neg hempty]
        unfold pyUpper
        rw [hkey2]


/-! ## Character-level lemmas for upper-casing -/

lemma char_toNat_ofNat (n : Nat) (h : n < 55296) : (Char.ofNat n).toNat = n := by
  rw [Char.ofNat, dif_pos (Or.inl h)]
  rfl

lemma toUpper_eq_or_range (c : Char) :
    c.toUpper = c ∨ (65 ≤ c.toUpper.toNat ∧ c.toUpper.toNat ≤ 90) := by
  unfold Char.toUpper
  by_cases h : 97 ≤ c.toNat ∧ c.toNat ≤ 122
  · right
    rw [if_pos h]
    have := char_toNat_ofNat (c.toNat - 32) (by omega)
    omega
  · left
    rw [if_neg h]

lemma toUpper_toUpper (c : Char) : c.toUpper.toUpper = c.toUpper := by
  unfold Char.toUpper
  by_cases h : 97 ≤ c.toNat ∧ c.toNat ≤ 122
  · rw [if_pos h]
    have hv := char_toNat_ofNat (c.toNat - 32) (by omega)
    rw [if_neg (by rw [hv]; omega)]
  · rw [if_neg h, if_neg h]

lemma pySpace_toNat (c : Char) (h : pySpace c = true) : c.toNat ≤ 32 := by
  unfold pySpace at h
  simp only [Bool.or_eq_true, decide_eq_true_eq] at h
  rcases h with ((((h | h) | h) | h) | h) | h <;> subst h <;> decide

/-- Upper-casing a character that is not whitespace, `;`, `(` or `)`
yields a character with the same four properties (an upper-case letter
or the character itself). -/
lemma toUpper_preserves (c : Char) (h1 : pySpace c = false) (h2 : c ≠ ';')
    (h3 : c ≠ '(') (h4 : c ≠ ')') :
    pySpace c.toUpper = false ∧ c.toUpper ≠ ';' ∧ c.toUpper ≠ '(' ∧
      c.toUpper ≠ ')' := by
  rcases toUpper_eq_or_range c with he | ⟨hl, hr⟩
  · rw [he]
    exact ⟨h1, h2, h3, h4⟩
  · refine ⟨?_, ?_, ?_, ?_⟩
    · cases hb : pySpace c.toUpper with
      | false => rfl
      | true =>
        exfalso
        have := pySpace_toNat _ hb
        omega
    · intro he
      have : c.toUpper.toNat = 59 := by rw [he]; rfl
      omega
    · intro he
      have : c.toUpper.toNat = 40 := by rw [he]; rfl
      omega
    · intro he
      have : c.toUpper.toNat = 41 := by rw [he]; rfl
      omega

/-! ## Membership and identity lemmas for the sanitizer stages -/

lemma mem_stripParensAux (l : List Char) :
    ∀ (d : Nat) (c : Char), c ∈ stripParensAux d l → c ≠ '(' ∧ c ≠ ')' := by
  induction l with
  | nil => intro d c hc; exact absurd hc (by simp [stripParensAux])
  | cons a r ih =>
    intro d c hc
    by_cases hop : a = '('
    · subst hop
      rw [stripParensAux_open] at hc
      exact ih (d + 1) c hc
    · by_cases hcl : a = ')'
      · subst hcl
        rw [stripParensAux_close] at hc
        exact ih (d - 1) c hc
      · rw [stripParensAux_other d a r hop hcl] at hc
        by_cases hd : d = 0
        · rw [if_pos hd] at hc
          rcases List.mem_cons.mp hc with he | hm
          · subst he
            exact ⟨hop, hcl⟩
          · exact ih 0 c hm
        · rw [if_neg hd] at hc
          exact ih d c hc

lemma stripParensAux_id (l : List Char)
    (h : ∀ c ∈ l, c ≠ '(' ∧ c ≠ ')') : stripParensAux 0 l = l := by
  induction l with
  | nil => rfl
  | cons a r ih =>
    have ha := h a (List.mem_cons_self a r)
    rw [stripParensAux_other 0 a r ha.1 ha.2, if_pos rfl,
      ih fun c hc => h c (List.mem_cons_of_mem a hc)]

lemma takeWhile_semi_id (l : List Char) (h : ∀ c ∈ l, c ≠ ';') :
    (l.takeWhile fun c => c ≠ ';') = l := by
  induction l with
  | nil => rfl
  | cons a r ih =>
    rw [List.takeWhile_cons_of_pos (by simp [h a (List.mem_cons_self a r)]),
      ih fun c hc => h c (List.mem_cons_of_mem a hc)]

lemma removeWs_id (l : List Char) (h : ∀ c ∈ l, pySpace c = false) :
    removeWs l = l :=
  List.filter_eq_self.mpr fun a ha => by simp [h a ha]

lemma pyUpper_pyUpper (l : List Char) : pyUpper (pyUpper l) = pyUpper l := by
  induction l with
  | nil => rfl
  | cons a r ih =>
    unfold pyUpper at ih ⊢
    simp only [List.map_cons, List.map_map] at ih ⊢
    rw [List.cons.injEq]
    exact ⟨toUpper_toUpper a, by simpa using ih⟩

/-! ## Claim theorems: the line sanitizer -/

/-- **C6**: the sanitizer is exactly the spec's pipeline — remove
parenthesised text with never-negative depth tracking, truncate at the
first `;`, delete all whitespace (including internal) and upper-case,
yielding empty when nothing remains; in particular
`"G1 X10 Y20 (move) ; go"` sanitizes to `"G1X10Y20"` and both `"   "`
and `"(only a comment)"` sanitize to the empty string. -/
theorem sanitizer_matches_spec :
    (∀ s : List Char, clean_gcode_line s = specSanitize s) ∧
    clean_gcode_line ("G1 X10 Y20 (move) ; go".toList) = ("G1X10Y20".toList) ∧
    clean_gcode_line ("   ".toList) = [] ∧
    clean_gcode_line ("(only a comment)".toList) = [] := by
  refine ⟨?_, by decide, by decide, by decide⟩
  intro s
  rw [clean_gcode_line_normal s]
  unfold specSanitize
  dsimp only
  by_cases h : removeWs ((stripParensAux 0 s).takeWhile fun c => c ≠ ';') = []
  · rw [if_pos h, h]
    rfl
  · rw [if_neg h]

/-- **C10**: the sanitizer is idempotent — its output contains no
parentheses, no semicolon, no whitespace and no lower-case letters, so
sanitizing a sanitized line changes nothing. -/
theorem sanitizer_idempotent (s : List Char) :
    clean_gcode_line (clean_gcode_line s) = clean_gcode_line s := by
  rw [clean_gcode_line_normal s]
  set b := removeWs ((stripParensAux 0 s).takeWhile fun c => c ≠ ';') with hb
  have hbase : ∀ c ∈ b, pySpace c = false ∧ c ≠ ';' ∧ c ≠ '(' ∧ c ≠ ')' := by
    intro c hc
    have hws : pySpace c = false := by
      have := List.of_mem_filter (p := fun c => !(pySpace c)) (by rw [hb] at hc; exact hc)
      simpa using this
    have htk : c ∈ (stripParensAux 0 s).takeWhile fun c => c ≠ ';' := by
      rw [hb] at hc
      exact List.mem_of_mem_filter hc
    have hsemi : c ≠ ';' := by
      have := List.mem_takeWhile_imp htk
      simpa using this
    have hmem : c ∈ stripParensAux 0 s :=
      (List.takeWhile_sublist _).subset htk
    have hpar := mem_stripParensAux s 0 c hmem
    exact ⟨hws, hsemi, hpar.1, hpar.2⟩
  have hup : ∀ c ∈ pyUpper b, pySpace c = false ∧ c ≠ ';' ∧ c ≠ '(' ∧ c ≠ ')' := by
    intro c hc
    rcases List.mem_map.mp hc with ⟨c0, hc0, he⟩
    have h0 := hbase c0 hc0
    rw [← he]
    exact toUpper_preserves c0 h0.1 h0.2.1 h0.2.2.1 h0.2.2.2
  rw [clean_gcode_line_normal (pyUpper b)]
  rw [stripParensAux_id (pyUpper b) fun c hc => ⟨(hup c hc).2.2.1, (hup c hc).2.2.2⟩]
  rw [takeWhile_semi_id (pyUpper b) fun c hc => (hup c hc).2.1]
  rw [removeWs_id (pyUpper b) fun c hc => (hup c hc).1]
  exact pyUpper_pyUpper b



/-! ## Locating fields in a well-formed status line (claim C4) -/

lemma findSplit_cons_ne (h0 : Char) (k : List Char) (c : Char) (t : List Char)
    (hc : ¬ c = h0) :
    findSplit (h0 :: k) (c :: t) =
      (findSplit (h0 :: k) t).map fun p => (c :: p.1, p.2) := by
  conv_lhs => rw [findSplit]
  rw [if_neg (by simp [List.isPrefixOf]; exact fun he => absurd he.symm hc)]

lemma findSplit_skip (h0 : Char) (k xs t : List Char) (h : h0 ∉ xs) :
    findSplit (h0 :: k) (xs ++ t) =
      (findSplit (h0 :: k) t).map fun p => (xs ++ p.1, p.2) := by
  induction xs with
  | nil =>
    simp only [List.nil_append]
    cases findSplit (h0 :: k) t <;> simp
  | cons c xs ih =>
    have hc : ¬ c = h0 := fun he => h (he ▸ List.mem_cons_self c xs)
    rw [List.cons_append, findSplit_cons_ne h0 k c (xs ++ t) hc,
      ih fun hm => h (List.mem_cons_of_mem c hm)]
    cases findSplit (h0 :: k) t <;> simp

lemma findSplit_step (h0 : Char) (k t : List Char) :
    findSplit (h0 :: k) (h0 :: t) =
      if k.isPrefixOf t then some ([], t.drop k.length)
      else (findSplit (h0 :: k) t).map fun p => (h0 :: p.1, p.2) := by
  have hred : ((h0 :: k).isPrefixOf (h0 :: t)) = k.isPrefixOf t := by
    simp [List.isPrefixOf]
  conv_lhs => rw [findSplit]
  rw [hred]
  by_cases hk : k.isPrefixOf t
  · rw [if_pos hk, if_pos hk]
    simp
  · rw [if_neg hk, if_neg hk]

lemma takeWhile_ne_cons_stop (c : Char) (t : List Char) :
    ((c :: t).takeWhile fun x => x ≠ c) = [] :=
  List.takeWhile_cons_of_neg (by simp)

lemma takeWhile_ne_cons_keep (c a : Char) (t : List Char) (h : ¬ a = c) :
    ((a :: t).takeWhile fun x => x ≠ c) =
      a :: (t.takeWhile fun x => x ≠ c) :=
  List.takeWhile_cons_of_pos (by simp [h])

lemma takeWhile_ne_append (c : Char) (xs t : List Char) (h : c ∉ xs) :
    ((xs ++ t).takeWhile fun x => x ≠ c) =
      xs ++ (t.takeWhile fun x => x ≠ c) := by
  induction xs with
  | nil => simp
  | cons a xs ih =>
    have ha : ¬ a = c := fun he => h (he ▸ List.mem_cons_self a xs)
    rw [List.cons_append, takeWhile_ne_cons_keep c a (xs ++ t) ha,
      ih fun hm => h (List.mem_cons_of_mem a hm), List.cons_append]

lemma takeWhile_ne_id (c : Char) (l : List Char) (h : c ∉ l) :
    (l.takeWhile fun x => x ≠ c) = l := by
  induction l with
  | nil => rfl
  | cons a r ih =>
    have ha : ¬ a = c := fun he => h (he ▸ List.mem_cons_self a r)
    rw [takeWhile_ne_cons_keep c a r ha, ih fun hm => h (List.mem_cons_of_mem a hm)]

lemma splitChar_append (sep : Char) (xs ys : List Char) (h : sep ∉ xs) :
    splitChar sep (xs ++ sep :: ys) = xs :: splitChar sep ys := by
  induction xs with
  | nil =>
    rw [List.nil_append]
    conv_lhs => rw [splitChar]
    rw [if_pos rfl]
  | cons a xs ih =>
    have ha : ¬ a = sep := fun he => h (he ▸ List.mem_cons_self a xs)
    rw [List.cons_append]
    conv_lhs => rw [splitChar]
    rw [if_neg ha, ih fun hm => h (List.mem_cons_of_mem a hm)]

lemma splitChar_of_not_mem (sep : Char) (xs : List Char) (h : sep ∉ xs) :
    splitChar sep xs = [xs] := by
  induction xs with
  | nil => rfl
  | cons a xs ih =>
    have ha : ¬ a = sep := fun he => h (he ▸ List.mem_cons_self a xs)
    conv_lhs => rw [splitChar]
    rw [if_neg ha, ih fun hm => h (List.mem_cons_of_mem a hm)]

/-- Renders a list of (key, value) fields as `|K1V1|K2V2...>` — the
tail of a status line after the state token. -/
def renderFields : List (List Char × List Char) → List Char
  | [] => ['>']
  | kv :: rest => '|' :: (kv.1 ++ (kv.2 ++ renderFields rest))

lemma renderFields_cons (kv : List Char × List Char)
    (rest : List (List Char × List Char)) :
    renderFields (kv :: rest) = '|' :: (kv.1 ++ (kv.2 ++ renderFields rest)) :=
  rfl

/-- Two keys that differ in their first character (all the status keys
under study do). -/
def headMismatch (key k1 : List Char) : Prop :=
  match key, k1 with
  | kc :: _, c1 :: _ => kc ≠ c1
  | _, _ => False

lemma isPrefixOf_append_self (k X : List Char) : k.isPrefixOf (k ++ X) = true :=
  List.isPrefixOf_iff_prefix.mpr ⟨X, rfl⟩

lemma isPrefixOf_false_of_headMismatch (key k1 X : List Char)
    (h : headMismatch key k1) : key.isPrefixOf (k1 ++ X) = false := by
  cases key with
  | nil => exact absurd h (by simp [headMismatch])
  | cons kc kt =>
    cases k1 with
    | nil => exact absurd h (by simp [headMismatch])
    | cons c1 k1t =>
      have hne : kc ≠ c1 := h
      have hb : (kc == c1) = false := beq_eq_false_iff_ne.mpr hne
      rw [List.cons_append]
      show ((kc == c1) && kt.isPrefixOf (k1t ++ X)) = false
      rw [hb, Bool.false_and]

/-- First-occurrence search for a needle `|key` in a rendered field list:
fields before the `key` field (no `|` in them, first key character
differing) are skipped, and the split lands just after `|key`. -/
lemma findSplit_renderFields (key v : List Char) :
    ∀ (fs1 fs2 : List (List Char × List Char)),
      (∀ kv ∈ fs1, '|' ∉ kv.1 ∧ '|' ∉ kv.2 ∧ headMismatch key kv.1) →
      ∃ pre, findSplit ('|' :: key) (renderFields (fs1 ++ (key, v) :: fs2)) =
        some (pre, v ++ renderFields fs2) := by
  intro fs1
  induction fs1 with
  | nil =>
    intro fs2 _
    refine ⟨[], ?_⟩
    rw [List.nil_append, renderFields_cons, findSplit_step,
      if_pos (isPrefixOf_append_self key _), List.drop_left]
  | cons kv fs1x ih =>
    intro fs2 hmiss
    obtain ⟨h1, h2, h3⟩ := hmiss kv (List.mem_cons_self kv fs1x)
    obtain ⟨pre0, hpre⟩ := ih fs2 fun kv0 hm => hmiss kv0 (List.mem_cons_of_mem kv hm)
    have hcalc : findSplit ('|' :: key)
        (renderFields ((kv :: fs1x) ++ (key, v) :: fs2)) =
        some ('|' :: (kv.1 ++ (kv.2 ++ pre0)), v ++ renderFields fs2) := by
      rw [List.cons_append, renderFields_cons, findSplit_step,
        if_neg (by simp [isPrefixOf_false_of_headMismatch key kv.1 _ h3]),
        findSplit_skip '|' key kv.1 _ h1, findSplit_skip '|' key kv.2 _ h2,
        hpre]
      rfl
    exact ⟨_, hcalc⟩

/-- `parse_field` on a well-formed line, for a field that is not the
last: the field's exact value is recovered. -/
lemma parse_field_render_mid (S key v : List Char)
    (fs1 : List (List Char × List Char)) (kv2 : List Char × List Char)
    (fs2x : List (List Char × List Char)) (hS : '|' ∉ S)
    (hmiss : ∀ kv ∈ fs1, '|' ∉ kv.1 ∧ '|' ∉ kv.2 ∧ headMismatch key kv.1)
    (hv : '|' ∉ v) :
    parse_field ('<' :: (S ++ renderFields (fs1 ++ (key, v) :: (kv2 :: fs2x))))
      key = some v := by
  obtain ⟨pre, hpre⟩ := findSplit_renderFields key v fs1 (kv2 :: fs2x) hmiss
  show (match findSplit ('|' :: key)
      ('<' :: (S ++ renderFields (fs1 ++ (key, v) :: kv2 :: fs2x))) with
    | none => none
    | some p => some (splitOnceLeft ['|'] p.2)) = some v
  rw [findSplit_cons_ne '|' key '<' _ (by decide),
    findSplit_skip '|' key S _ hS, hpre]
  simp only [Option.map]
  rw [splitOnceLeft_singleton, renderFields_cons,
    takeWhile_ne_append '|' v _ hv, takeWhile_ne_cons_stop, List.append_nil]

/-- `parse_field` on a well-formed line, for the last field: the value
is recovered **with the trailing `>` attached** — the parser does not
stop at the closing bracket. -/
lemma parse_field_render_last (S key v : List Char)
    (fs1 : List (List Char × List Char)) (hS : '|' ∉ S)
    (hmiss : ∀ kv ∈ fs1, '|' ∉ kv.1 ∧ '|' ∉ kv.2 ∧ headMismatch key kv.1)
    (hv : '|' ∉ v) :
    parse_field ('<' :: (S ++ renderFields (fs1 ++ [(key, v)]))) key =
      some (v ++ ['>']) := by
  obtain ⟨pre, hpre⟩ := findSplit_renderFields key v fs1 [] hmiss
  show (match findSplit ('|' :: key)
      ('<' :: (S ++ renderFields (fs1 ++ [(key, v)]))) with
    | none => none
    | some p => some (splitOnceLeft ['|'] p.2)) = some (v ++ ['>'])
  rw [findSplit_cons_ne '|' key '<' _ (by decide),
    findSplit_skip '|' key S _ hS, hpre]
  simp only [Option.map]
  rw [splitOnceLeft_singleton, takeWhile_ne_append '|' v _ hv]
  rfl

/-- A well-formed status line of the shape the claim quantifies over:
`<S|MPos:a1,a2,a3|WCO:w1,w2,w3|Bf:p,r|FS:fd,s2|Pn:pv|A:av>`. -/
def statusLine (S a1 a2 a3 w1 w2 w3 p r fd s2 pv av : List Char) : List Char :=
  '<' :: (S ++ renderFields
    [(keyMPos, a1 ++ (',' :: (a2 ++ (',' :: a3)))),
     (keyWCO, w1 ++ (',' :: (w2 ++ (',' :: w3)))),
     (keyBf, p ++ (',' :: r)),
     (keyFS, fd ++ (',' :: s2)),
     (keyPn, pv),
     (keyA, av)])


lemma parse_state_render (S : List Char) (kv : List Char × List Char)
    (fs : List (List Char × List Char)) (hS : '|' ∉ S) :
    parse_state_from_status ('<' :: (S ++ renderFields (kv :: fs))) = some S := by
  have hfind : findSplit ['|'] ('<' :: (S ++ renderFields (kv :: fs))) =
      some ('<' :: (S ++ []), kv.1 ++ (kv.2 ++ renderFields fs)) := by
    rw [findSplit_cons_ne '|' [] '<' _ (by decide),
      findSplit_skip '|' [] S _ hS, renderFields_cons, findSplit_step,
      if_pos (show [].isPrefixOf (kv.1 ++ (kv.2 ++ renderFields fs)) = true
        by simp [List.isPrefixOf])]
    rfl
  unfold parse_state_from_status
  rw [if_pos ⟨by simp [List.isPrefixOf],
    by unfold pyContains; rw [hfind]; rfl⟩]
  show some (splitOnceLeft ['|'] (S ++ renderFields (kv :: fs))) = some S
  rw [splitOnceLeft_singleton, takeWhile_ne_append '|' S _ hS,
    renderFields_cons, takeWhile_ne_cons_stop, List.append_nil]

lemma parse_vec3_triple (a1 a2 a3 : List Char) (qa qb qc : ℚ)
    (hc1 : ',' ∉ a1) (hc2 : ',' ∉ a2) (hc3 : ',' ∉ a3)
    (hqa : pyFloat? a1 = some qa) (hqb : pyFloat? a2 = some qb)
    (hqc : pyFloat? a3 = some qc) :
    parse_vec3 (some (a1 ++ (',' :: (a2 ++ (',' :: a3))))) =
      some (qa, qb, qc) := by
  have hsplit : splitChar ',' (a1 ++ (',' :: (a2 ++ (',' :: a3)))) =
      [a1, a2, a3] := by
    rw [splitChar_append ',' a1 _ hc1, splitChar_append ',' a2 _ hc2,
      splitChar_of_not_mem ',' a3 hc3]
  simp only [parse_vec3]
  rw [if_neg (by simp), hsplit]
  rw [if_neg (by simp)]
  simp only [List.getD_cons_zero, List.getD_cons_succ]
  rw [hqa, hqb, hqc]

lemma findSplit_comma (p r : List Char) (hcp : ',' ∉ p) :
    findSplit [','] (p ++ (',' :: r)) = some (p, r) := by
  rw [findSplit_skip ',' [] p _ hcp, findSplit_step,
    if_pos (show [].isPrefixOf r = true by simp [List.isPrefixOf])]
  simp

/-- The concrete status line of the claim's testable-property form. -/
def cexStatusLine : List Char :=
  "<Idle|MPos:1,2,3|WCO:0,0,0|Bf:14,120|FS:500,8000|Pn:XY|A:SF>".toList

/-- **C4** counterexample: on the well-formed line
`<Idle|MPos:1,2,3|WCO:0,0,0|Bf:14,120|FS:500,8000|Pn:XY|A:SF>`
the parsers recover the state, machine position, `Bf` pair, feed and pin
set exactly as the claim states — but the accessory set is
`{S, F, '>'}`, not `{S, F}`: the value of the final field runs to the end
of the string, and the closing `>` is never removed. -/
theorem status_accessories_cex :
    parse_state_from_status cexStatusLine = some ("Idle".toList) ∧
    parse_vec3 (parse_field cexStatusLine keyMPos) = some (1, 2, 3) ∧
    parse_bf_from_status cexStatusLine = some (14, 120) ∧
    parse_feed_from_status cexStatusLine = some ("500".toList) ∧
    parse_pins_from_status cexStatusLine = {'X', 'Y'} ∧
    parse_accessories_from_status cexStatusLine ≠ ({'S', 'F'} : Finset Char) ∧
    parse_accessories_from_status cexStatusLine = {'S', 'F', '>'} := by
  decide



/-- **C4** (amended): for every well-formed status line of the form
`<S|MPos:a1,a2,a3|WCO:w1,w2,w3|Bf:p,r|FS:fd,s2|Pn:pv|A:av>` (fields free
of `|`, vector/`Bf`/feed components free of `,` where splitting matters,
numeric components parseable), the parsers recover exactly: state `S`,
machine position `(a1, a2, a3)`, `Bf` pair `(p, r)`, feed `fd` (the text
before the first comma of the `FS` field), pin set = the characters of
`pv` — and the accessory set is the characters of `av` **plus the
closing `>`**, because the last field's value runs to the end of the
string. -/
theorem status_line_roundtrip
    (S a1 a2 a3 w1 w2 w3 p r fd s2 pv av : List Char) (qa qb qc : ℚ)
    (ip ir : Int)
    (hS : '|' ∉ S) (ha1 : '|' ∉ a1) (ha2 : '|' ∉ a2) (ha3 : '|' ∉ a3)
    (hw1 : '|' ∉ w1) (hw2 : '|' ∉ w2) (hw3 : '|' ∉ w3)
    (hp : '|' ∉ p) (hr : '|' ∉ r) (hfd : '|' ∉ fd) (hs2 : '|' ∉ s2)
    (hpv : '|' ∉ pv) (hav : '|' ∉ av)
    (hc1 : ',' ∉ a1) (hc2 : ',' ∉ a2) (hc3 : ',' ∉ a3)
    (hcp : ',' ∉ p) (hcf : ',' ∉ fd)
    (hqa : pyFloat? a1 = some qa) (hqb : pyFloat? a2 = some qb)
    (hqc : pyFloat? a3 = some qc)
    (hip : pyInt? p = some ip) (hir : pyInt? r = some ir)
    (hspv : pyStrip pv = pv) (hpvne : pv ≠ [])
    (hsav : pyStrip (av ++ ['>']) = av ++ ['>']) :
    parse_state_from_status (statusLine S a1 a2 a3 w1 w2 w3 p r fd s2 pv av) =
      some S ∧
    parse_vec3 (parse_field (statusLine S a1 a2 a3 w1 w2 w3 p r fd s2 pv av)
      keyMPos) = some (qa, qb, qc) ∧
    parse_bf_from_status (statusLine S a1 a2 a3 w1 w2 w3 p r fd s2 pv av) =
      some (ip, ir) ∧
    parse_feed_from_status (statusLine S a1 a2 a3 w1 w2 w3 p r fd s2 pv av) =
      some fd ∧
    parse_pins_from_status (statusLine S a1 a2 a3 w1 w2 w3 p r fd s2 pv av) =
      pv.toFinset ∧
    parse_accessories_from_status
      (statusLine S a1 a2 a3 w1 w2 w3 p r fd s2 pv av) =
        (av ++ ['>']).toFinset := by
  have hvalMPos : '|' ∉ a1 ++ (',' :: (a2 ++ (',' :: a3))) := by
    simp [List.mem_append, List.mem_cons, ha1, ha2, ha3]
  have hvalWCO : '|' ∉ w1 ++ (',' :: (w2 ++ (',' :: w3))) := by
    simp [List.mem_append, List.mem_cons, hw1, hw2, hw3]
  have hvalBf : '|' ∉ p ++ (',' :: r) := by
    simp [List.mem_append, List.mem_cons, hp, hr]
  have hvalFS : '|' ∉ fd ++ (',' :: s2) := by
    simp [List.mem_append, List.mem_cons, hfd, hs2]
  have hm0 : ∀ kv ∈ ([] : List (List Char × List Char)),
      '|' ∉ kv.1 ∧ '|' ∉ kv.2 ∧ headMismatch keyMPos kv.1 :=
    fun kv hkv => absurd hkv (List.not_mem_nil kv)
  have hfMPos : parse_field (statusLine S a1 a2 a3 w1 w2 w3 p r fd s2 pv av)
      keyMPos = some (a1 ++ (',' :: (a2 ++ (',' :: a3)))) :=
    parse_field_render_mid S keyMPos (a1 ++ (',' :: (a2 ++ (',' :: a3)))) []
      (keyWCO, w1 ++ (',' :: (w2 ++ (',' :: w3))))
      [(keyBf, p ++ (',' :: r)), (keyFS, fd ++ (',' :: s2)),
        (keyPn, pv), (keyA, av)]
      hS (fun kv hkv => absurd hkv (List.not_mem_nil kv)) hvalMPos
  have hfBf : parse_field (statusLine S a1 a2 a3 w1 w2 w3 p r fd s2 pv av)
      keyBf = some (p ++ (',' :: r)) := by
    refine parse_field_render_mid S keyBf (p ++ (',' :: r))
      [(keyMPos, a1 ++ (',' :: (a2 ++ (',' :: a3)))),
        (keyWCO, w1 ++ (',' :: (w2 ++ (',' :: w3))))]
      (keyFS, fd ++ (',' :: s2)) [(keyPn, pv), (keyA, av)] hS ?_ hvalBf
    intro kv hkv
    rcases List.mem_cons.mp hkv with he | hkv
    · subst he
      exact ⟨(by decide : '|' ∉ keyMPos), hvalMPos, (by decide : ('B' : Char) ≠ 'M')⟩
    rcases List.mem_cons.mp hkv with he | hkv
    · subst he
      exact ⟨(by decide : '|' ∉ keyWCO), hvalWCO, (by decide : ('B' : Char) ≠ 'W')⟩
    exact absurd hkv (List.not_mem_nil kv)
  have hfFS : parse_field (statusLine S a1 a2 a3 w1 w2 w3 p r fd s2 pv av)
      keyFS = some (fd ++ (',' :: s2)) := by
    refine parse_field_render_mid S keyFS (fd ++ (',' :: s2))
      [(keyMPos, a1 ++ (',' :: (a2 ++ (',' :: a3)))),
        (keyWCO, w1 ++ (',' :: (w2 ++ (',' :: w3)))),
        (keyBf, p ++ (',' :: r))]
      (keyPn, pv) [(keyA, av)] hS ?_ hvalFS
    intro kv hkv
    rcases List.mem_cons.mp hkv with he | hkv
    · subst he
      exact ⟨(by decide : '|' ∉ keyMPos), hvalMPos, (by decide : ('F' : Char) ≠ 'M')⟩
    rcases List.mem_cons.mp hkv with he | hkv
    · subst he
      exact ⟨(by decide : '|' ∉ keyWCO), hvalWCO, (by decide : ('F' : Char) ≠ 'W')⟩
    rcases List.mem_cons.mp hkv with he | hkv
    · subst he
      exact ⟨(by decide : '|' ∉ keyBf), hvalBf, (by decide : ('F' : Char) ≠ 'B')⟩
    exact absurd hkv (List.not_mem_nil kv)
  have hfPn : parse_field (statusLine S a1 a2 a3 w1 w2 w3 p r fd s2 pv av)
      keyPn = some pv := by
    refine parse_field_render_mid S keyPn pv
      [(keyMPos, a1 ++ (',' :: (a2 ++ (',' :: a3)))),
        (keyWCO, w1 ++ (',' :: (w2 ++ (',' :: w3)))),
        (keyBf, p ++ (',' :: r)), (keyFS, fd ++ (',' :: s2))]
      (keyA, av) [] hS ?_ hpv
    intro kv hkv
    rcases List.mem_cons.mp hkv with he | hkv
    · subst he
      exact ⟨(by decide : '|' ∉ keyMPos), hvalMPos, (by decide : ('P' : Char) ≠ 'M')⟩
    rcases List.mem_cons.mp hkv with he | hkv
    · subst he
      exact ⟨(by decide : '|' ∉ keyWCO), hvalWCO, (by decide : ('P' : Char) ≠ 'W')⟩
    rcases List.mem_cons.mp hkv with he | hkv
    · subst he
      exact ⟨(by decide : '|' ∉ keyBf), hvalBf, (by decide : ('P' : Char) ≠ 'B')⟩
    rcases List.mem_cons.mp hkv with he | hkv
    · subst he
      exact ⟨(by decide : '|' ∉ keyFS), hvalFS, (by decide : ('P' : Char) ≠ 'F')⟩
    exact absurd hkv (List.not_mem_nil kv)
  have hfA : parse_field (statusLine S a1 a2 a3 w1 w2 w3 p r fd s2 pv av)
      keyA = some (av ++ ['>']) := by
    refine parse_field_render_last S keyA av
      [(keyMPos, a1 ++ (',' :: (a2 ++ (',' :: a3)))),
        (keyWCO, w1 ++ (',' :: (w2 ++ (',' :: w3)))),
        (keyBf, p ++ (',' :: r)), (keyFS, fd ++ (',' :: s2)),
        (keyPn, pv)]
      hS ?_ hav
    intro kv hkv
    rcases List.mem_cons.mp hkv with he | hkv
    · subst he
      exact ⟨(by decide : '|' ∉ keyMPos), hvalMPos, (by decide : ('A' : Char) ≠ 'M')⟩
    rcases List.mem_cons.mp hkv with he | hkv
    · subst he
      exact ⟨(by decide : '|' ∉ keyWCO), hvalWCO, (by decide : ('A' : Char) ≠ 'W')⟩
    rcases List.mem_cons.mp hkv with he | hkv
    · subst he
      exact ⟨(by decide : '|' ∉ keyBf), hvalBf, (by decide : ('A' : Char) ≠ 'B')⟩
    rcases List.mem_cons.mp hkv with he | hkv
    · subst he
      exact ⟨(by decide : '|' ∉ keyFS), hvalFS, (by decide : ('A' : Char) ≠ 'F')⟩
    rcases List.mem_cons.mp hkv with he | hkv
    · subst he
      exact ⟨(by decide : '|' ∉ keyPn), hpv, (by decide : ('A' : Char) ≠ 'P')⟩
    exact absurd hkv (List.not_mem_nil kv)
  refine ⟨?_, ?_, ?_, ?_, ?_, ?_⟩
  · exact parse_state_render S _ _ hS
  · rw [hfMPos]
    exact parse_vec3_triple a1 a2 a3 qa qb qc hc1 hc2 hc3 hqa hqb hqc
  · unfold parse_bf_from_status
    rw [hfBf]
    dsimp only
    rw [if_neg (by simp), findSplit_comma p r hcp]
    dsimp only
    rw [hip, hir]
  · unfold parse_feed_from_status
    rw [hfFS]
    dsimp only
    rw [if_neg (by simp), splitOnceLeft_singleton,
      takeWhile_ne_append ',' fd _ hcf, takeWhile_ne_cons_stop,
      List.append_nil]
  · unfold parse_pins_from_status
    rw [hfPn]
    dsimp only
    rw [if_neg hpvne, hspv]
  · unfold parse_accessories_from_status
    rw [hfA]
    dsimp only
    rw [if_neg (by simp), hsav]

/-- Witness for `status_line_roundtrip`: the concrete line
`<Idle|MPos:1,2,3|WCO:0,0,0|Bf:14,120|FS:500,8000|Pn:XY|A:SF>`. -/
theorem status_line_roundtrip_witness :
    parse_state_from_status (statusLine ("Idle".toList) ("1".toList)
        ("2".toList) ("3".toList) ("0".toList) ("0".toList) ("0".toList)
        ("14".toList) ("120".toList) ("500".toList) ("8000".toList)
        ("XY".toList) ("SF".toList)) = some ("Idle".toList) ∧
    parse_bf_from_status (statusLine ("Idle".toList) ("1".toList)
        ("2".toList) ("3".toList) ("0".toList) ("0".toList) ("0".toList)
        ("14".toList) ("120".toList) ("500".toList) ("8000".toList)
        ("XY".toList) ("SF".toList)) = some (14, 120) ∧
    parse_accessories_from_status (statusLine ("Idle".toList) ("1".toList)
        ("2".toList) ("3".toList) ("0".toList) ("0".toList) ("0".toList)
        ("14".toList) ("120".toList) ("500".toList) ("8000".toList)
        ("XY".toList) ("SF".toList)) = ("SF>".toList).toFinset := by
  have h := status_line_roundtrip ("Idle".toList) ("1".toList) ("2".toList)
    ("3".toList) ("0".toList) ("0".toList) ("0".toList) ("14".toList)
    ("120".toList) ("500".toList) ("8000".toList) ("XY".toList)
    ("SF".toList) 1 2 3 14 120
    (by decide) (by decide) (by decide) (by decide) (by decide) (by decide)
    (by decide) (by decide) (by decide) (by decide) (by decide) (by decide)
    (by decide) (by decide) (by decide) (by decide) (by decide) (by decide)
    (by decide) (by decide) (by decide) (by decide) (by decide) (by decide)
    (by decide) (by decide)
  exact ⟨h.1, h.2.2.1, h.2.2.2.2.2⟩


end GrblSender
